import Mathlib

/-!
Verification of the oasis-sdk runtime core: shallow embedding of the
dispatch, storage-confidentiality and consensus-accounts pipeline
(`runtime-sdk/src/dispatcher.rs`, `runtime-sdk/src/storage/confidential.rs`,
`runtime-sdk/src/modules/consensus_accounts/mod.rs`,
`runtime-sdk-macros/src/handler_attrs.rs`) together with theorems checking
the specification's claims against this code.

Byte strings are modelled as `List Nat`; external collaborators that the
spec scopes out (DeoxysII AEAD, Blake3) are parameters of the embedding,
constrained only by the contracts the core consumes.
-/

namespace OasisSdk

/-- Byte strings. -/
abbrev Bytes := List Nat

/-! ## Confidential store (runtime-sdk/src/storage/confidential.rs)

The store encrypts every key and value with an AEAD before forwarding to the
inner store.  The AEAD (DeoxysII) and the hash (Blake3) are external
collaborators, modelled as an abstract parameter record. -/

/-- Abstract model of the external DeoxysII AEAD (seal/open with nonce and
additional data) and of the Blake3 hash, as consumed by
`ConfidentialStore`.  Both are deterministic functions, as in the source. -/
structure AeadModel where
  aeadSeal : Bytes → Bytes → Bytes → Bytes
  aeadOpen : Bytes → Bytes → Bytes → Option Bytes
  hash : Bytes → Bytes

/-- Model of `deoxysii::NONCE_SIZE` (15 bytes). -/
def NONCE_SIZE : Nat := 15

namespace ConfidentialStore

/-- Model of `ConfidentialStore::pack_key`: `nonce ∥ enc_key`. -/
def pack_key (nonce enc_key : Bytes) : Bytes :=
  nonce ++ enc_key

/-- Model of `ConfidentialStore::make_key`: nonce is the first `NONCE_SIZE` bytes of the
Blake3 digest of the plaintext key; the stored key is
`pack_key (seal K nonce plain_key (aad := nonce)) nonce`. -/
def make_key (A : AeadModel) (plain_key : Bytes) : Bytes × Bytes :=
  let nonce := (A.hash plain_key).take NONCE_SIZE
  (nonce, pack_key nonce (A.aeadSeal nonce plain_key nonce))

/-- Model of `ConfidentialStore::unpack_key`: `None` when the raw key is not longer
than `NONCE_SIZE`, otherwise the `(nonce, enc_key)` split. -/
def unpack_key (raw_key : Bytes) : Option (Bytes × Bytes) :=
  if raw_key.length ≤ NONCE_SIZE then none
  else some (raw_key.take NONCE_SIZE, raw_key.drop NONCE_SIZE)

/-- Model of `ConfidentialStore::get_key`: decrypts a raw stored key. -/
def get_key (A : AeadModel) (raw_key : Bytes) : Except String (Bytes × Bytes) :=
  match unpack_key raw_key with
  | some (nonce, enc_key) =>
    match A.aeadOpen nonce enc_key nonce with
    | some key => .ok (nonce, key)
    | none => .error "aead open failed"
  | none => .error "raw key value not long enough"

/-- Model of `ConfidentialStore::get_value`: decrypts a stored value with the key's nonce. -/
def get_value (A : AeadModel) (enc_value nonce : Bytes) : Except String Bytes :=
  match A.aeadOpen nonce enc_value nonce with
  | some v => .ok v
  | none => .error "aead open failed"

/-- Model of `ConfidentialStore::make_value`: `seal K nonce value (aad := nonce)`. -/
def make_value (A : AeadModel) (value nonce : Bytes) : Bytes :=
  A.aeadSeal nonce value nonce

end ConfidentialStore

/-- The inner `Store`, modelled as an association list of entries; `insert`
overwrites the entry with the same key. -/
abbrev KVStore := List (Bytes × Bytes)

/-- Inner store point lookup. -/
def kv_get (st : KVStore) (k : Bytes) : Option Bytes :=
  (st.find? (fun e => e.1 == k)).map (·.2)

/-- Inner store insert (overwrites an existing entry with the same key). -/
def kv_insert (st : KVStore) (k v : Bytes) : KVStore :=
  (k, v) :: st.filter (fun e => e.1 != k)

/-- Result of `ConfidentialStore::get`: the source panics (via `expect`) when
decryption of a present value fails. -/
inductive ConfGetResult
  | panicked
  | absent
  | found (v : Bytes)
  deriving DecidableEq, Repr

namespace ConfidentialStore

/-- Model of `<ConfidentialStore as Store>::get`. -/
def get (A : AeadModel) (inner : KVStore) (key : Bytes) : ConfGetResult :=
  let nk := make_key A key
  match kv_get inner nk.2 with
  | none => .absent
  | some inner_value =>
    match get_value A inner_value nk.1 with
    | .ok v => .found v
    | .error _ => .panicked

/-- Model of `<ConfidentialStore as Store>::insert`. -/
def insert (A : AeadModel) (inner : KVStore) (key value : Bytes) : KVStore :=
  let nk := make_key A key
  kv_insert inner nk.2 (make_value A value nk.1)

end ConfidentialStore

/-! ### Confidential store iterator (`ConfidentialStoreIterator`) -/

/-- The inner mkvs iterator: a list of raw entries with a cursor. -/
structure InnerIter where
  entries : KVStore
  pos : Nat
  deriving DecidableEq, Repr

/-- Model of `mkvs::Iterator::is_valid` of the inner iterator. -/
def InnerIter.is_valid (it : InnerIter) : Bool :=
  it.pos < it.entries.length

/-- Current raw key of the inner iterator. -/
def InnerIter.cur_key (it : InnerIter) : Option Bytes :=
  (it.entries.get? it.pos).map (·.1)

/-- Current raw value of the inner iterator. -/
def InnerIter.cur_value (it : InnerIter) : Option Bytes :=
  (it.entries.get? it.pos).map (·.2)

/-- The decrypting iterator's own fields (`key`, `value`, `error`). -/
structure ConfIterState where
  key : Option Bytes
  value : Option Bytes
  error : Option String
  deriving DecidableEq, Repr

/-- Model of `ConfidentialStoreIterator::load`, with the inner iterator's validity
passed explicitly (the source reads it through `is_valid(self)`). -/
def conf_iter_load (A : AeadModel) (inner_valid : Bool) (st : ConfIterState)
    (inner_key inner_value : Bytes) : ConfIterState :=
  if st.error.isNone && inner_valid then
    match ConfidentialStore.get_key A inner_key with
    | .ok nk =>
      match ConfidentialStore.get_value A inner_value nk.1 with
      | .ok v => { st with key := some nk.2, value := some v }
      | .error e => { st with error := some e }
    | .error e => { st with error := some e }
  else st

/-- Model of `ConfidentialStoreIterator::reset_and_load`. -/
def conf_reset_and_load (A : AeadModel) (inner : InnerIter) : ConfIterState :=
  let st : ConfIterState := ⟨none, none, none⟩
  if inner.is_valid then
    match inner.cur_key with
    | some ik =>
      match inner.cur_value with
      | some iv => conf_iter_load A true st ik iv
      | none => { st with error := some "no value in valid inner iterator" }
    | none => { st with error := some "no key in valid inner iterator" }
  else st

/-- Model of `mkvs::Iterator::is_valid` for the confidential iterator:
no own error and inner valid. -/
def conf_iter_is_valid (st : ConfIterState) (inner_valid : Bool) : Bool :=
  st.error.isNone && inner_valid

/-! ### Concrete AEAD/hash instance used for witnesses

A toy executable AEAD satisfying the seal/open round-trip contract, used only
to evaluate the theorems on concrete inputs. -/

/-- Toy seal: shift every byte and append a tag byte. -/
def cexSeal (_nonce pt _aad : Bytes) : Bytes := pt.map (· + 1) ++ [7]

/-- Toy open: inverse of `cexSeal` (checks the tag byte). -/
def cexOpen (_nonce ct _aad : Bytes) : Option Bytes :=
  if ct.getLast? = some 7 then some (ct.dropLast.map (· - 1)) else none

/-- Toy 32-byte hash (pads/truncates the input). -/
def cexHash (k : Bytes) : Bytes := (k ++ List.replicate 32 0).take 32

/-- The toy AEAD model. -/
def cexAead : AeadModel := ⟨cexSeal, cexOpen, cexHash⟩

/-- The toy AEAD satisfies the seal/open round-trip contract. -/
theorem cexAead_roundtrip (n p : Bytes) :
    cexAead.aeadOpen n (cexAead.aeadSeal n p n) n = some p := by
  simp only [cexAead, cexSeal, cexOpen, List.getLast?_concat, List.dropLast_concat,
    List.map_map, if_pos]
  have h : ((fun x => x - 1) ∘ fun x => x + 1) = fun x : Nat => x := by
    funext x; simp
  rw [h]
  simp

/-! ### Claims about the confidential store -/

/-- C8: For every plaintext key, the stored key built by `make_key` is
`nonce ∥ AEAD_seal(K, nonce, plain_key, aad = nonce)` where `nonce` is the
first 15 bytes of the Blake3 digest of the plaintext key (which has at least
`NONCE_SIZE` bytes), so the nonce is exactly 15 bytes long.  `make_key` is a
pure function of the AEAD instance (key `K`) and the plaintext key, so the
same plaintext key always yields the same stored key. -/
theorem stored_key_structure (A : AeadModel) (plain_key : Bytes)
    (hlen : NONCE_SIZE ≤ (A.hash plain_key).length) :
    ConfidentialStore.make_key A plain_key =
      ((A.hash plain_key).take NONCE_SIZE,
       (A.hash plain_key).take NONCE_SIZE ++
         A.aeadSeal ((A.hash plain_key).take NONCE_SIZE) plain_key
           ((A.hash plain_key).take NONCE_SIZE)) ∧
    ((ConfidentialStore.make_key A plain_key).1).length = NONCE_SIZE := by
  refine ⟨rfl, ?_⟩
  simp only [ConfidentialStore.make_key, List.length_take]
  omega

/-- Witness: `stored_key_structure` evaluated at the toy AEAD and key `[1]`. -/
theorem stored_key_structure_witness :
    ConfidentialStore.make_key cexAead [1] =
      ((cexAead.hash [1]).take NONCE_SIZE,
       (cexAead.hash [1]).take NONCE_SIZE ++
         cexAead.aeadSeal ((cexAead.hash [1]).take NONCE_SIZE) [1]
           ((cexAead.hash [1]).take NONCE_SIZE)) ∧
    ((ConfidentialStore.make_key cexAead [1]).1).length = NONCE_SIZE :=
  stored_key_structure cexAead [1] (by decide)

/-- C9: during iteration, a raw stored key shorter than `NONCE_SIZE` makes
`reset_and_load` record an error in the iterator (no panic: the embedding is
a total function returning an error state), and `is_valid` is then false. -/
theorem short_raw_key_iter_error (A : AeadModel) (inner : InnerIter)
    (ik iv : Bytes)
    (hvalid : inner.is_valid = true)
    (hk : inner.cur_key = some ik) (hv : inner.cur_value = some iv)
    (hshort : ik.length < NONCE_SIZE) :
    ((conf_reset_and_load A inner).error).isSome = true ∧
    conf_iter_is_valid (conf_reset_and_load A inner) inner.is_valid = false := by
  have hle : ik.length ≤ NONCE_SIZE := Nat.le_of_lt hshort
  have hload : conf_reset_and_load A inner =
      { key := none, value := none, error := some "raw key value not long enough" } := by
    unfold conf_reset_and_load
    rw [hvalid, hk, hv]
    simp only [if_true]
    unfold conf_iter_load
    simp only [Option.isNone_none, Bool.and_self, if_true]
    unfold ConfidentialStore.get_key ConfidentialStore.unpack_key
    rw [if_pos hle]
  rw [hload, hvalid]
  exact ⟨rfl, rfl⟩

/-- Witness: `short_raw_key_iter_error` at an inner iterator positioned on a
2-byte raw key. -/
theorem short_raw_key_iter_error_witness :
    ((conf_reset_and_load cexAead ⟨[([1, 2], [3])], 0⟩).error).isSome = true ∧
    conf_iter_is_valid (conf_reset_and_load cexAead ⟨[([1, 2], [3])], 0⟩)
      (InnerIter.is_valid ⟨[([1, 2], [3])], 0⟩) = false :=
  short_raw_key_iter_error cexAead ⟨[([1, 2], [3])], 0⟩ [1, 2] [3]
    (by decide) (by decide) (by decide) (by decide)

/-- C1 counterexample: at plaintext key `[2]` and the empty plaintext value,
`insert` followed by `get` does return the value, but the underlying inner
store trivially contains the (empty) plaintext value as a subslice of its
stored value — the empty byte string is a subslice of every byte string, for
any AEAD whatsoever — so the claim's second conjunct is false as stated. -/
theorem conf_insert_leaks_empty_value :
    ConfidentialStore.get cexAead (ConfidentialStore.insert cexAead [] [2] []) [2] =
      .found [] ∧
    ConfidentialStore.insert cexAead [] [2] [] =
      [([2, 0, 0, 0, 0, 0, 0, 0, 0, 0, 0, 0, 0, 0, 0, 3, 7], [7])] ∧
    [] <:+: ([7] : Bytes) := by
  refine ⟨by decide, by decide, List.nil_infix⟩

/-- C1 (amended): after `insert(k, v)`, `get(k)` returns the plaintext value
(given the AEAD round-trip contract); the only entry the confidential store
writes to the inner store is `(make_key k, make_value v)` — both AEAD seal
outputs — and hence, whenever `v` is not a subslice of those two seal
outputs nor of the pre-existing inner entries, the inner store does not
contain `v` as a subslice of any stored key or value. -/
theorem conf_insert_get_no_leak (A : AeadModel) (inner : KVStore) (k v : Bytes)
    (hrt : ∀ n p, A.aeadOpen n (A.aeadSeal n p n) n = some p)
    (hinner : ∀ e ∈ inner, ¬ v <:+: e.1 ∧ ¬ v <:+: e.2)
    (hkey : ¬ v <:+: (ConfidentialStore.make_key A k).2)
    (hval : ¬ v <:+: ConfidentialStore.make_value A v (ConfidentialStore.make_key A k).1) :
    ConfidentialStore.get A (ConfidentialStore.insert A inner k v) k = .found v ∧
    ConfidentialStore.insert A inner k v =
      ((ConfidentialStore.make_key A k).2,
        ConfidentialStore.make_value A v (ConfidentialStore.make_key A k).1) ::
        inner.filter (fun e => e.1 != (ConfidentialStore.make_key A k).2) ∧
    ∀ e ∈ ConfidentialStore.insert A inner k v, ¬ v <:+: e.1 ∧ ¬ v <:+: e.2 := by
  refine ⟨?_, rfl, ?_⟩
  · simp [ConfidentialStore.get, ConfidentialStore.insert, kv_get, kv_insert,
      ConfidentialStore.get_value, ConfidentialStore.make_value, hrt]
  · intro e he
    rcases List.mem_cons.mp he with h | h
    · subst h
      exact ⟨hkey, hval⟩
    · exact hinner e (List.mem_of_mem_filter h)

/-- Witness: `conf_insert_get_no_leak` at the toy AEAD, empty inner store,
key `[2]` and value `[5]`. -/
theorem conf_insert_get_no_leak_witness :
    ConfidentialStore.get cexAead (ConfidentialStore.insert cexAead [] [2] [5]) [2] =
      .found [5] ∧
    ConfidentialStore.insert cexAead [] [2] [5] =
      ((ConfidentialStore.make_key cexAead [2]).2,
        ConfidentialStore.make_value cexAead [5] (ConfidentialStore.make_key cexAead [2]).1) ::
        List.filter (fun e => e.1 != (ConfidentialStore.make_key cexAead [2]).2) [] ∧
    ∀ e ∈ ConfidentialStore.insert cexAead [] [2] [5], ¬ [5] <:+: e.1 ∧ ¬ [5] <:+: e.2 :=
  conf_insert_get_no_leak cexAead [] [2] [5] cexAead_roundtrip
    (by simp) (by decide) (by decide)

/-! ## Macro-generated method dispatcher
(runtime-sdk-macros/src/handler_attrs.rs, `gen_module_items`)

The `calls`/`queries` attribute macros generate a `handle_call`/`handle_query`
method of the shape

```
let mut method_parts = method.splitn(1, '.');
if method_parts.next().map(|p| p == MODULE_NAME).unwrap_or_default() {
    return DispatchResult::Unhandled(args);
}
match method_parts.next() {
    Some(rpc_method_name_i) => ...dispatch to handler i...,
    _ => DispatchResult::Unhandled(args),
}
```

We embed Rust's `str::splitn` faithfully and then the generated dispatcher,
with the dispatch arms abstracted by an association list from RPC method
names to handler outcomes. -/

/-- Split a string at the first occurrence of `sep`:
`some (before, after)`, or `none` when `sep` does not occur. -/
def splitFirst (sep : Char) : List Char → Option (List Char × List Char)
  | [] => none
  | c :: rest =>
    if c = sep then some ([], rest)
    else (splitFirst sep rest).map (fun p => (c :: p.1, p.2))

/-- Rust `str::splitn(n, sep)`: at most `n` parts; the last part keeps the
rest of the string unsplit; `n = 0` yields no parts. -/
def rustSplitn (n : Nat) (sep : Char) (s : List Char) : List (List Char) :=
  match n with
  | 0 => []
  | 1 => [s]
  | Nat.succ (Nat.succ m) =>
    match splitFirst sep s with
    | none => [s]
    | some p => p.1 :: rustSplitn (Nat.succ m) sep p.2

/-- Model of `module::DispatchResult` (runtime-sdk/src/module.rs). -/
inductive MDispatch (B R : Type) : Type
  | handled (r : R)
  | unhandled (b : B)
  deriving DecidableEq, Repr

/-- The generated `handle_call`/`handle_query` body from
`gen_module_items`: `splitn(1, '.')`, the module-name guard, and the match
over the generated dispatch arms (`arms` maps each handler's RPC method name
to its outcome). -/
def genHandleCall (moduleName : List Char) (arms : List (List Char × Nat))
    (method : List Char) (args : Nat) : MDispatch Nat Nat :=
  let method_parts := rustSplitn 1 '.' method
  if ((method_parts.get? 0).map (fun p => p == moduleName)).getD false then
    .unhandled args
  else
    match method_parts.get? 1 with
    | some p =>
      match arms.find? (fun a => a.1 == p) with
      | some a => .handled a.2
      | none => .unhandled args
    | none => .unhandled args

/-- The generated dispatcher never reaches any dispatch arm: `splitn(1, '.')`
yields the whole method string as its only element, so the second
`next()` is always `None` (and a method equal to the bare module name
hits the early `Unhandled` return). -/
theorem genHandleCall_always_unhandled (moduleName : List Char)
    (arms : List (List Char × Nat)) (method : List Char) (args : Nat) :
    genHandleCall moduleName arms method args = .unhandled args := by
  unfold genHandleCall rustSplitn
  by_cases h : (method == moduleName) = true
  · simp [h]
  · simp [h]

/-- C5: evaluating the generated dispatcher at the failing input — runtime
module name `consensus`, a registered handler for RPC name `Deposit`, and the
incoming method string `consensus.Deposit` — yields `Unhandled`, whereas the
claim (and the spec's intended behavior) requires dispatch to the `Deposit`
handler.  The `splitn(1, '.')` in `gen_module_items` never splits at the dot
(and the module-name guard is inverted), so no method ever dispatches. -/
theorem genHandleCall_drops_matching_method :
    genHandleCall "consensus".data [("Deposit".data, 1)] "consensus.Deposit".data 0 =
      .unhandled 0 := by
  decide

/-! ## Previous-round message results
(runtime-sdk/src/dispatcher.rs, `Dispatcher::handle_last_round_messages`)

The persisted `{index → hook}` map is modelled as an association list, the
composite `dispatch_message_result` by a predicate `handled` on hook names,
and the function additionally returns the list of handler invocations it
performed (hook with its persisted payload, paired with the event). -/

/-- A consensus `MessageEvent` (only the index matters for dispatch; `code`
stands for the rest of the event payload). -/
structure MessageEvent where
  index : Nat
  code : Nat
  deriving DecidableEq, Repr

/-- Model of `types::message::MessageEventHookInvocation` (hook name plus persisted
CBOR payload, the latter abstracted as a `Nat`). -/
structure MessageEventHookInvocation where
  hook_name : String
  payload : Nat
  deriving DecidableEq, Repr

/-- The `modules::core::Error` variants reachable from
`handle_last_round_messages`. -/
inductive CoreError
  | messageHandlerMissing (index : Nat)
  | invalidMethod (name : String)
  | messageHandlerNotInvoked
  deriving DecidableEq, Repr

/-- Model of `BTreeMap::remove` on the handler map: the removed entry together with
the map without it, or `none` when the key is absent. -/
def assocRemove (k : Nat) :
    List (Nat × MessageEventHookInvocation) →
      Option (MessageEventHookInvocation × List (Nat × MessageEventHookInvocation))
  | [] => none
  | (k', h) :: rest =>
    if k' = k then some (h, rest)
    else (assocRemove k rest).map (fun p => (p.1, (k', h) :: p.2))

/-- Model of `Dispatcher::handle_last_round_messages`: for each event pop its handler
(`MessageHandlerMissing` when absent), invoke it (`InvalidMethod` when no
module handles the hook name), and finally fail with
`MessageHandlerNotInvoked` when entries are left over. -/
def handle_last_round_messages (handled : String → Bool)
    (handlers : List (Nat × MessageEventHookInvocation)) :
    List MessageEvent →
      List (MessageEventHookInvocation × MessageEvent) × Except CoreError Unit
  | [] =>
    ([], if handlers.isEmpty then .ok () else .error .messageHandlerNotInvoked)
  | e :: rest =>
    match assocRemove e.index handlers with
    | none => ([], .error (.messageHandlerMissing e.index))
    | some (h, handlers') =>
      if handled h.hook_name then
        let r := handle_last_round_messages handled handlers' rest
        ((h, e) :: r.1, r.2)
      else ([], .error (.invalidMethod h.hook_name))

/-- The map removal `assocRemove` returns `none` exactly when the key is absent. -/
theorem assocRemove_eq_none_iff (k : Nat)
    (hs : List (Nat × MessageEventHookInvocation)) :
    assocRemove k hs = none ↔ k ∉ hs.map Prod.fst := by
  induction hs with
  | nil => simp [assocRemove]
  | cons p rest ih =>
    obtain ⟨k', h⟩ := p
    by_cases hk : k' = k
    · subst hk
      simp [assocRemove]
    · simp [assocRemove, hk, Option.map_eq_none', ih, Ne.symm hk]

/-- On success, `assocRemove` splits off exactly one occurrence of the key:
the original map is a permutation of the removed entry consed onto the
remainder, and the remainder is a sublist of the original. -/
theorem assocRemove_eq_some (k : Nat)
    {hs hs' : List (Nat × MessageEventHookInvocation)}
    {h : MessageEventHookInvocation}
    (hrem : assocRemove k hs = some (h, hs')) :
    hs.Perm ((k, h) :: hs') ∧ hs'.Sublist hs := by
  induction hs generalizing hs' with
  | nil => simp [assocRemove] at hrem
  | cons p rest ih =>
    obtain ⟨k', h'⟩ := p
    by_cases hk : k' = k
    · subst hk
      simp only [assocRemove, if_pos rfl, Option.some.injEq, Prod.mk.injEq] at hrem
      obtain ⟨rfl, rfl⟩ := hrem
      exact ⟨List.Perm.refl _, List.sublist_cons_self _ _⟩
    · simp only [assocRemove, if_neg hk, Option.map_eq_some'] at hrem
      obtain ⟨⟨h₁, t⟩, hrec, heq⟩ := hrem
      obtain ⟨rfl, rfl⟩ := Prod.mk.injEq .. ▸ heq
      obtain ⟨hperm, hsub⟩ := ih hrec
      constructor
      · exact (hperm.cons (k', h')).trans (List.Perm.swap _ _ _)
      · exact hsub.cons_cons _

/-- Success characterization: when every mapped hook is handled, processing
succeeds iff the event indices are a permutation of the handler-map keys. -/
theorem hlrm_ok_iff (handled : String → Bool)
    (hs : List (Nat × MessageEventHookInvocation)) (es : List MessageEvent)
    (hh : ∀ p ∈ hs, handled p.2.hook_name = true) :
    (handle_last_round_messages handled hs es).2 = .ok () ↔
      (es.map MessageEvent.index).Perm (hs.map Prod.fst) := by
  induction es generalizing hs with
  | nil =>
    cases hs with
    | nil => simp [handle_last_round_messages]
    | cons p rest =>
      simp only [handle_last_round_messages, List.isEmpty_cons, List.map_nil]
      constructor
      · intro hcontra
        exact absurd hcontra (by simp)
      · intro hperm
        exact absurd (hperm.symm.eq_nil) (by simp)
  | cons e rest ih =>
    cases hrem : assocRemove e.index hs with
    | none =>
      have hnot : e.index ∉ hs.map Prod.fst := (assocRemove_eq_none_iff _ _).mp hrem
      simp only [handle_last_round_messages, hrem, List.map_cons]
      constructor
      · intro hcontra
        exact absurd hcontra (by simp)
      · intro hperm
        exact absurd (hperm.mem_iff.mp (List.mem_cons_self _ _)) hnot
    | some ph =>
      obtain ⟨h, hs'⟩ := ph
      obtain ⟨hperm, hsub⟩ := assocRemove_eq_some e.index hrem
      have hhandled : handled h.hook_name = true :=
        hh _ (hperm.mem_iff.mpr (List.mem_cons_self _ _))
      have hh' : ∀ p ∈ hs', handled p.2.hook_name = true :=
        fun p hp => hh p (hsub.subset hp)
      simp only [handle_last_round_messages, hrem, hhandled, if_true, List.map_cons]
      rw [ih hs' hh']
      have hkeys : (hs.map Prod.fst).Perm (e.index :: hs'.map Prod.fst) := hperm.map Prod.fst
      constructor
      · intro hp
        exact (hp.cons e.index).trans hkeys.symm
      · intro hp
        exact (hp.trans hkeys).cons_inv

/-- Invocation log on success: every handler entry is invoked exactly once
with its persisted payload (the log's `(index, hook)` pairs are a permutation
of the handler map), and the log pairs the events in batch order. -/
theorem hlrm_ok_log (handled : String → Bool)
    (hs : List (Nat × MessageEventHookInvocation)) (es : List MessageEvent)
    (hh : ∀ p ∈ hs, handled p.2.hook_name = true)
    (hok : (handle_last_round_messages handled hs es).2 = .ok ()) :
    (handle_last_round_messages handled hs es).1.map Prod.snd = es ∧
    ((handle_last_round_messages handled hs es).1.map
      (fun p => (p.2.index, p.1))).Perm hs := by
  induction es generalizing hs with
  | nil =>
    cases hs with
    | nil => simp [handle_last_round_messages]
    | cons p rest =>
      simp [handle_last_round_messages] at hok
  | cons e rest ih =>
    cases hrem : assocRemove e.index hs with
    | none => simp [handle_last_round_messages, hrem] at hok
    | some ph =>
      obtain ⟨h, hs'⟩ := ph
      obtain ⟨hperm, hsub⟩ := assocRemove_eq_some e.index hrem
      have hhandled : handled h.hook_name = true :=
        hh _ (hperm.mem_iff.mpr (List.mem_cons_self _ _))
      have hh' : ∀ p ∈ hs', handled p.2.hook_name = true :=
        fun p hp => hh p (hsub.subset hp)
      simp only [handle_last_round_messages, hrem, hhandled, if_true] at hok ⊢
      obtain ⟨hlog, hpairs⟩ := ih hs' hh' hok
      refine ⟨by simp [hlog], ?_⟩
      simp only [List.map_cons]
      exact (hpairs.cons (e.index, h)).trans hperm.symm

/-- Missing-handler behavior: the first event whose index has no entry in
the (progressively drained) handler map fails the whole step with
`MessageHandlerMissing` of that index. -/
theorem hlrm_missing (handled : String → Bool)
    (hs : List (Nat × MessageEventHookInvocation))
    (es₁ : List MessageEvent) (e : MessageEvent) (es₂ : List MessageEvent)
    (hh : ∀ p ∈ hs, handled p.2.hook_name = true)
    (hnodup : ((es₁ ++ e :: es₂).map MessageEvent.index).Nodup)
    (hprev : ∀ e' ∈ es₁, e'.index ∈ hs.map Prod.fst)
    (hmiss : e.index ∉ hs.map Prod.fst) :
    (handle_last_round_messages handled hs (es₁ ++ e :: es₂)).2 =
      .error (.messageHandlerMissing e.index) := by
  induction es₁ generalizing hs with
  | nil =>
    have hrem : assocRemove e.index hs = none := (assocRemove_eq_none_iff _ _).mpr hmiss
    simp [handle_last_round_messages, hrem]
  | cons e₁ rest ih =>
    have h1 : e₁.index ∈ hs.map Prod.fst := hprev e₁ (List.mem_cons_self _ _)
    cases hrem : assocRemove e₁.index hs with
    | none => exact absurd ((assocRemove_eq_none_iff _ _).mp hrem) (not_not.mpr h1)
    | some ph =>
      obtain ⟨h, hs'⟩ := ph
      obtain ⟨hperm, hsub⟩ := assocRemove_eq_some e₁.index hrem
      have hkeys : (hs.map Prod.fst).Perm (e₁.index :: hs'.map Prod.fst) := hperm.map Prod.fst
      have hhandled : handled h.hook_name = true :=
        hh _ (hperm.mem_iff.mpr (List.mem_cons_self _ _))
      have hh' : ∀ p ∈ hs', handled p.2.hook_name = true :=
        fun p hp => hh p (hsub.subset hp)
      have hhead : e₁.index ∉ ((rest ++ e :: es₂).map MessageEvent.index) := by
        have := hnodup
        simp only [List.cons_append, List.map_cons, List.nodup_cons] at this
        exact this.1
      have hnodup' : ((rest ++ e :: es₂).map MessageEvent.index).Nodup := by
        have := hnodup
        simp only [List.cons_append, List.map_cons, List.nodup_cons] at this
        exact this.2
      have hprev' : ∀ e' ∈ rest, e'.index ∈ hs'.map Prod.fst := by
        intro e' he'
        have hmem : e'.index ∈ hs.map Prod.fst := hprev e' (List.mem_cons_of_mem _ he')
        have hne : e'.index ≠ e₁.index := by
          intro hcontra
          apply hhead
          rw [← hcontra]
          exact List.mem_map_of_mem MessageEvent.index (List.mem_append_left _ he')
        rcases List.mem_cons.mp (hkeys.mem_iff.mp hmem) with hx | hx
        · exact absurd hx hne
        · exact hx
      have hmiss' : e.index ∉ hs'.map Prod.fst := by
        intro hcontra
        exact hmiss (hkeys.mem_iff.mpr (List.mem_cons_of_mem _ hcontra))
      simp only [List.cons_append, handle_last_round_messages, hrem, hhandled, if_true]
      exact ih hs' hh' hnodup' hprev' hmiss'

/-- Leftover-handler behavior: when every event finds its handler but some
handler-map key is matched by no event, processing fails with
`MessageHandlerNotInvoked`. -/
theorem hlrm_leftover (handled : String → Bool)
    (hs : List (Nat × MessageEventHookInvocation)) (es : List MessageEvent)
    (hh : ∀ p ∈ hs, handled p.2.hook_name = true)
    (hnodup : (es.map MessageEvent.index).Nodup)
    (hall : ∀ e ∈ es, e.index ∈ hs.map Prod.fst)
    (k : Nat) (hk : k ∈ hs.map Prod.fst) (hkno : k ∉ es.map MessageEvent.index) :
    (handle_last_round_messages handled hs es).2 =
      .error .messageHandlerNotInvoked := by
  induction es generalizing hs with
  | nil =>
    cases hs with
    | nil => simp at hk
    | cons p rest => simp [handle_last_round_messages]
  | cons e rest ih =>
    have h1 : e.index ∈ hs.map Prod.fst := hall e (List.mem_cons_self _ _)
    cases hrem : assocRemove e.index hs with
    | none => exact absurd ((assocRemove_eq_none_iff _ _).mp hrem) (not_not.mpr h1)
    | some ph =>
      obtain ⟨h, hs'⟩ := ph
      obtain ⟨hperm, hsub⟩ := assocRemove_eq_some e.index hrem
      have hkeys : (hs.map Prod.fst).Perm (e.index :: hs'.map Prod.fst) := hperm.map Prod.fst
      have hhandled : handled h.hook_name = true :=
        hh _ (hperm.mem_iff.mpr (List.mem_cons_self _ _))
      have hh' : ∀ p ∈ hs', handled p.2.hook_name = true :=
        fun p hp => hh p (hsub.subset hp)
      have hkne : k ≠ e.index := by
        intro hcontra
        apply hkno
        rw [hcontra]
        exact List.mem_cons_self _ _
      have hk' : k ∈ hs'.map Prod.fst := by
        rcases List.mem_cons.mp (hkeys.mem_iff.mp hk) with hx | hx
        · exact absurd hx hkne
        · exact hx
      have hkno' : k ∉ rest.map MessageEvent.index :=
        fun hcontra => hkno (List.mem_cons_of_mem _ hcontra)
      have hnodup' : (rest.map MessageEvent.index).Nodup := (List.nodup_cons.mp hnodup).2
      have hhead : e.index ∉ rest.map MessageEvent.index := (List.nodup_cons.mp hnodup).1
      have hall' : ∀ e' ∈ rest, e'.index ∈ hs'.map Prod.fst := by
        intro e' he'
        have hmem : e'.index ∈ hs.map Prod.fst := hall e' (List.mem_cons_of_mem _ he')
        have hne : e'.index ≠ e.index := by
          intro hcontra
          exact hhead (hcontra ▸ List.mem_map_of_mem MessageEvent.index he')
        rcases List.mem_cons.mp (hkeys.mem_iff.mp hmem) with hx | hx
        · exact absurd hx hne
        · exact hx
      simp only [handle_last_round_messages, hrem, hhandled, if_true]
      exact ih hs' hh' hnodup' hall' hk' hkno'

/-- C3: with every mapped hook handled and host event indices distinct:
the step succeeds iff the event indices are exactly (a permutation of) the
handler-map keys; on success each handler entry is removed and invoked
exactly once with the event and its persisted payload; an event index with
no entry fails the batch with `MessageHandlerMissing` of that index; and
leftover entries after all events fail it with `MessageHandlerNotInvoked`. -/
theorem message_handlers_exact_match (handled : String → Bool)
    (handlers : List (Nat × MessageEventHookInvocation))
    (events : List MessageEvent)
    (hh : ∀ p ∈ handlers, handled p.2.hook_name = true)
    (hnodup : (events.map MessageEvent.index).Nodup) :
    ((handle_last_round_messages handled handlers events).2 = .ok () ↔
      (events.map MessageEvent.index).Perm (handlers.map Prod.fst)) ∧
    ((handle_last_round_messages handled handlers events).2 = .ok () →
      (handle_last_round_messages handled handlers events).1.map Prod.snd = events ∧
      ((handle_last_round_messages handled handlers events).1.map
        (fun p => (p.2.index, p.1))).Perm handlers) ∧
    (∀ es₁ e es₂, events = es₁ ++ e :: es₂ →
      (∀ e' ∈ es₁, e'.index ∈ handlers.map Prod.fst) →
      e.index ∉ handlers.map Prod.fst →
      (handle_last_round_messages handled handlers events).2 =
        .error (.messageHandlerMissing e.index)) ∧
    ((∀ e ∈ events, e.index ∈ handlers.map Prod.fst) →
      ∀ k ∈ handlers.map Prod.fst, k ∉ events.map MessageEvent.index →
      (handle_last_round_messages handled handlers events).2 =
        .error .messageHandlerNotInvoked) := by
  refine ⟨hlrm_ok_iff handled handlers events hh,
    hlrm_ok_log handled handlers events hh, ?_, ?_⟩
  · intro es₁ e es₂ hsplit hprev hmiss
    subst hsplit
    exact hlrm_missing handled handlers es₁ e es₂ hh hnodup hprev hmiss
  · intro hall k hk hkno
    exact hlrm_leftover handled handlers events hh hnodup hall k hk hkno

/-- Witness: `message_handlers_exact_match` at a concrete two-entry handler
map and matching two-event list. -/
theorem message_handlers_exact_match_witness :
    ((handle_last_round_messages (fun _ => true)
        [(0, ⟨"h0", 10⟩), (1, ⟨"h1", 11⟩)] [⟨0, 0⟩, ⟨1, 0⟩]).2 = .ok () ↔
      (([⟨0, 0⟩, ⟨1, 0⟩] : List MessageEvent).map MessageEvent.index).Perm
        (([(0, ⟨"h0", 10⟩), (1, ⟨"h1", 11⟩)] :
          List (Nat × MessageEventHookInvocation)).map Prod.fst)) ∧
    ((handle_last_round_messages (fun _ => true)
        [(0, ⟨"h0", 10⟩), (1, ⟨"h1", 11⟩)] [⟨0, 0⟩, ⟨1, 0⟩]).2 = .ok () →
      (handle_last_round_messages (fun _ => true)
        [(0, ⟨"h0", 10⟩), (1, ⟨"h1", 11⟩)] [⟨0, 0⟩, ⟨1, 0⟩]).1.map Prod.snd =
          [⟨0, 0⟩, ⟨1, 0⟩] ∧
      ((handle_last_round_messages (fun _ => true)
        [(0, ⟨"h0", 10⟩), (1, ⟨"h1", 11⟩)] [⟨0, 0⟩, ⟨1, 0⟩]).1.map
          (fun p => (p.2.index, p.1))).Perm [(0, ⟨"h0", 10⟩), (1, ⟨"h1", 11⟩)]) ∧
    (∀ es₁ e es₂, ([⟨0, 0⟩, ⟨1, 0⟩] : List MessageEvent) = es₁ ++ e :: es₂ →
      (∀ e' ∈ es₁, e'.index ∈ (([(0, ⟨"h0", 10⟩), (1, ⟨"h1", 11⟩)] :
          List (Nat × MessageEventHookInvocation)).map Prod.fst)) →
      e.index ∉ (([(0, ⟨"h0", 10⟩), (1, ⟨"h1", 11⟩)] :
          List (Nat × MessageEventHookInvocation)).map Prod.fst) →
      (handle_last_round_messages (fun _ => true)
        [(0, ⟨"h0", 10⟩), (1, ⟨"h1", 11⟩)] [⟨0, 0⟩, ⟨1, 0⟩]).2 =
          .error (.messageHandlerMissing e.index)) ∧
    ((∀ e ∈ ([⟨0, 0⟩, ⟨1, 0⟩] : List MessageEvent),
        e.index ∈ (([(0, ⟨"h0", 10⟩), (1, ⟨"h1", 11⟩)] :
          List (Nat × MessageEventHookInvocation)).map Prod.fst)) →
      ∀ k ∈ (([(0, ⟨"h0", 10⟩), (1, ⟨"h1", 11⟩)] :
          List (Nat × MessageEventHookInvocation)).map Prod.fst),
        k ∉ ([⟨0, 0⟩, ⟨1, 0⟩] : List MessageEvent).map MessageEvent.index →
      (handle_last_round_messages (fun _ => true)
        [(0, ⟨"h0", 10⟩), (1, ⟨"h1", 11⟩)] [⟨0, 0⟩, ⟨1, 0⟩]).2 =
          .error .messageHandlerNotInvoked) :=
  message_handlers_exact_match (fun _ => true)
    [(0, ⟨"h0", 10⟩), (1, ⟨"h1", 11⟩)] [⟨0, 0⟩, ⟨1, 0⟩]
    (by decide) (by decide)

/-! ## Transaction dispatch (runtime-sdk/src/dispatcher.rs)

The batch and transaction contexts come from `runtime-sdk/src/context.rs`,
which is not among the sources; their write-overlay/commit behaviour is
modelled from the spec (§3 C4).  Runtime state is an opaque key-value map,
module behaviour is a `RuntimeModel` parameter record whose hooks receive the
`is_check_only` mode flag wherever the source reads it from the context, and
module errors are abstracted as the `CallResult` their `into_call_result()`
produces. -/

/-- Abstract runtime state (key-value map). -/
abbrev RtState := List (Nat × Nat)

/-- An emitted outbound message paired with its result-handler descriptor. -/
structure OutMessage where
  body : Nat
  hook : MessageEventHookInvocation
  deriving DecidableEq, Repr

/-- The batch-scoped context (state root, block tag buffer, emitted-message
list). -/
structure BatchContext where
  state : RtState
  blockTags : List Nat
  messages : List OutMessage
  deriving DecidableEq, Repr

/-- The transaction-scoped context: snapshotted write overlay plus per-tx
tag/message buffers and gas-priority counters. -/
structure TxContext where
  state : RtState
  tags : List Nat
  messages : List OutMessage
  priority : Nat
  weights : Nat
  deriving DecidableEq, Repr

/-- Modelled from the spec: `with_tx` opens a fresh transaction scope with a
snapshotted write overlay over the batch state and empty per-tx buffers
(`runtime-sdk/src/context.rs` is not among the sources; spec §3 C4). -/
def BatchContext.with_tx (b : BatchContext) : TxContext :=
  ⟨b.state, [], [], 0, 0⟩

/-- Modelled from the spec: `TxContext::commit` flushes the overlay into the
parent and returns the scope's `(tags, messages)` (spec §3 C4). -/
def BatchContext.commit_tx (b : BatchContext) (t : TxContext) :
    BatchContext × List Nat × List OutMessage :=
  ({ b with state := t.state }, t.tags, t.messages)

/-- Modelled from the spec: `emit_messages` appends to the batch's message
buffer. -/
def BatchContext.emit_messages (b : BatchContext) (ms : List OutMessage) :
    BatchContext :=
  { b with messages := b.messages ++ ms }

/-- Model of `module::CallResult`. -/
inductive CallResult
  | ok (value : Nat)
  | failed (module : String) (code : Nat) (message : String)
  | aborted (err : Nat)
  deriving DecidableEq, Repr

/-- Model of `CallResult::is_success`. -/
def CallResult.is_success : CallResult → Bool
  | .ok _ => true
  | _ => false

/-- Model of `dispatcher::DispatchResult` (call-format metadata omitted). -/
structure DispatchResult where
  result : CallResult
  tags : List Nat
  priority : Nat
  weights : Nat
  deriving DecidableEq, Repr

/-- Model of `DispatchResult::from(CallResult)` / `DispatchResult::new`:
empty tags, zero priority and weights. -/
def DispatchResult.fromCallResult (r : CallResult) : DispatchResult :=
  ⟨r, [], 0, 0⟩

/-- A decoded transaction (method and body abstracted). -/
structure Tx where
  method : Nat
  body : Nat
  deriving DecidableEq, Repr

/-- Behaviour of the runtime's composite modules as consumed by the
dispatcher: authentication, call-format decoding (`callformat::decode_call`,
taking the transaction index), before-call hooks, call dispatch, the core
module's priority/weight take-out, and the batch-level phases. -/
structure RuntimeModel where
  authenticate_tx : Bool → BatchContext → Tx → Option CallResult
  decode_call : Bool → TxContext → Tx → Nat → Except CallResult (Option Nat)
  before_handle_call : Bool → TxContext → Nat → Option CallResult
  dispatch_call : Bool → TxContext → Nat → CallResult × TxContext
  take_priority : TxContext → Nat × TxContext
  take_weights : TxContext → Nat × TxContext
  migrate : BatchContext → BatchContext
  message_phase : BatchContext → Except Nat BatchContext
  begin_block : BatchContext → BatchContext
  end_block : BatchContext → BatchContext

/-- Model of `Dispatcher::dispatch_tx_call`: `before_handle_call` hooks (an error
fails the call), then `dispatch_call` (whose `Unhandled` outcome the
composite model already folds into `InvalidMethod`). -/
def dispatch_tx_call (R : RuntimeModel) (co : Bool) (t : TxContext)
    (call : Nat) : CallResult × TxContext :=
  match R.before_handle_call co t call with
  | some e => (e, t)
  | none => R.dispatch_call co t call

/-- The body of the `with_tx` closure in `Dispatcher::dispatch_tx`: resolve
the call format (`None` short-circuits to `Ok(null)`, modelled as `ok 0`),
run the call, and only on success take priority/weights and `commit` the tx
scope; every other outcome returns with empty tags/messages and the parent
context untouched. -/
def dispatch_tx_inner (R : RuntimeModel) (co : Bool) (b : BatchContext)
    (tx : Tx) (index : Nat) : DispatchResult × List OutMessage × BatchContext :=
  match R.decode_call co b.with_tx tx index with
  | .error e => (DispatchResult.fromCallResult e, [], b)
  | .ok none => (DispatchResult.fromCallResult (.ok 0), [], b)
  | .ok (some call) =>
    let rc := dispatch_tx_call R co b.with_tx call
    if rc.1.is_success then
      let p := R.take_priority rc.2
      let w := R.take_weights p.2
      let cm := b.commit_tx w.2
      (⟨rc.1, cm.2.1, p.1, w.1⟩, cm.2.2, cm.1)
    else (DispatchResult.fromCallResult rc.1, [], b)

/-- Model of `Dispatcher::dispatch_tx`: authentication (an error synthesizes a failed
result without opening a tx scope), the tx scope body, abort propagation,
and forwarding of emitted messages into the batch context. -/
def dispatch_tx (R : RuntimeModel) (co : Bool) (b : BatchContext) (tx : Tx)
    (index : Nat) : Except Nat DispatchResult × BatchContext :=
  match R.authenticate_tx co b tx with
  | some e => (.ok (DispatchResult.fromCallResult e), b)
  | none =>
    match (dispatch_tx_inner R co b tx index).1.result with
    | .aborted e => (.error e, b)
    | _ =>
      (.ok (dispatch_tx_inner R co b tx index).1,
       ((dispatch_tx_inner R co b tx index).2.2).emit_messages
         (dispatch_tx_inner R co b tx index).2.1)

/-- Wire encoding of a call result (`From<CallResult> for
transaction::CallResult`): an aborted result serializes as `Failed` with the
dispatcher error's module and code. -/
def CallResult.encode : CallResult → CallResult
  | .aborted e => .failed "dispatcher" e "aborted"
  | r => r

/-- Model of `ExecuteTxResult` (CBOR-encoded output abstracted to the call result). -/
structure ExecuteTxResult where
  output : CallResult
  tags : List Nat
  deriving DecidableEq, Repr

/-- Model of `Dispatcher::execute_tx`. -/
def execute_tx (R : RuntimeModel) (b : BatchContext) (tx : Tx) (index : Nat) :
    Except Nat ExecuteTxResult × BatchContext :=
  match dispatch_tx R false b tx index with
  | (.error e, b') => (.error e, b')
  | (.ok d, b') => (.ok ⟨d.result.encode, d.tags⟩, b')

/-- The per-transaction loop of `execute_batch`
(`results.push(Self::execute_tx(&mut ctx, tx_size, tx, index)?)`). -/
def execute_txs (R : RuntimeModel) :
    BatchContext → List Tx → Nat → Except Nat (List ExecuteTxResult × BatchContext)
  | b, [], _ => .ok ([], b)
  | b, tx :: rest, i =>
    match execute_tx R b tx i with
    | (.error e, _) => .error e
    | (.ok r, b') => (execute_txs R b' rest (i + 1)).map (fun p => (r :: p.1, p.2))

/-- Model of `ExecuteBatchResult`. -/
structure ExecuteBatchResult where
  results : List ExecuteTxResult
  messages : List OutMessage
  blockTags : List Nat
  deriving DecidableEq, Repr

/-- Model of `Dispatcher::execute_batch` over decoded transactions: migration, the
previous-round message phase (whose faithful model is
`handle_last_round_messages`; here a `RuntimeModel` field), `begin_block`,
the per-transaction loop — any fatal error aborts the whole batch — then
`end_block` and the batch commit. -/
def execute_batch (R : RuntimeModel) (b0 : BatchContext) (txs : List Tx) :
    Except Nat ExecuteBatchResult :=
  match R.message_phase (R.migrate b0) with
  | .error e => .error e
  | .ok b2 =>
    match execute_txs R (R.begin_block b2) txs 0 with
    | .error e => .error e
    | .ok (rs, b4) =>
      .ok ⟨rs, (R.end_block b4).messages, (R.end_block b4).blockTags⟩

/-- Model of `usize::MAX`, the sentinel index `check_tx` passes to `dispatch_tx`. -/
def USIZE_MAX : Nat := 18446744073709551615

/-- Model of `CheckTxResult`: a default (empty) error means success; `meta` carries
priority and weights. -/
structure CheckTxResult where
  error : Option (String × Nat × String)
  meta : Option (Nat × Nat)
  deriving DecidableEq, Repr

/-- Model of `Dispatcher::check_tx`: the same dispatch flow in check mode with the
sentinel index, mapped onto a `CheckTxResult`; aborts propagate. -/
def check_tx (R : RuntimeModel) (b : BatchContext) (tx : Tx) :
    Except Nat CheckTxResult × BatchContext :=
  match dispatch_tx R true b tx USIZE_MAX with
  | (.error e, b') => (.error e, b')
  | (.ok d, b') =>
    match d.result with
    | .ok _ => (.ok ⟨none, some (d.priority, d.weights)⟩, b')
    | .failed m c s => (.ok ⟨some (m, c, s), none⟩, b')
    | .aborted e => (.error e, b')

/-- The per-transaction loop of `check_batch`. -/
def check_txs (R : RuntimeModel) :
    BatchContext → List Tx → Except Nat (List CheckTxResult × BatchContext)
  | b, [] => .ok ([], b)
  | b, tx :: rest =>
    match check_tx R b tx with
    | (.error e, _) => .error e
    | (.ok r, b') => (check_txs R b' rest).map (fun p => (r :: p.1, p.2))

/-- Model of `Dispatcher::check_batch` over decoded transactions: migration then the
per-transaction check loop (no message phase, no begin/end block, no batch
commit). -/
def check_batch (R : RuntimeModel) (b0 : BatchContext) (txs : List Tx) :
    Except Nat (List CheckTxResult) :=
  (check_txs R (R.migrate b0) txs).map Prod.fst

/-- Per-transaction Ok-versus-Failed outcome of a check result. -/
def CheckTxResult.outcome_ok (c : CheckTxResult) : Bool := c.error.isNone

/-- Per-transaction Ok-versus-Failed outcome of an execute result. -/
def ExecuteTxResult.outcome_ok (r : ExecuteTxResult) : Bool :=
  r.output.is_success

/-- Appending no messages leaves the batch context unchanged. -/
theorem emit_messages_nil (b : BatchContext) : b.emit_messages [] = b := by
  simp [BatchContext.emit_messages]

/-- Any non-successful outcome of the tx-scope body leaves empty tags, no
messages, and the parent batch context untouched (the overlay is dropped,
`commit` is not called). -/
theorem dispatch_tx_inner_discard (R : RuntimeModel) (co : Bool)
    (b : BatchContext) (tx : Tx) (index : Nat)
    (h : (dispatch_tx_inner R co b tx index).1.result.is_success = false) :
    (dispatch_tx_inner R co b tx index).1.tags = [] ∧
    (dispatch_tx_inner R co b tx index).2.1 = [] ∧
    (dispatch_tx_inner R co b tx index).2.2 = b := by
  unfold dispatch_tx_inner at h ⊢
  rcases hdec : R.decode_call co b.with_tx tx index with e | o
  · exact ⟨rfl, rfl, rfl⟩
  · rcases o with _ | call
    · rw [hdec] at h
      simp [DispatchResult.fromCallResult, CallResult.is_success] at h
    · rw [hdec] at h
      cases hs : (dispatch_tx_call R co b.with_tx call).1.is_success with
      | true => simp [hs] at h
      | false => simp [hs, DispatchResult.fromCallResult]

/-- On a successful call the tx-scope body takes priority and weights and
commits: the result carries the scope's tags, the emitted messages are
returned, and the parent state becomes the scope's final overlay state. -/
theorem dispatch_tx_inner_flush (R : RuntimeModel) (co : Bool)
    (b : BatchContext) (tx : Tx) (index : Nat) (call : Nat) (res : CallResult)
    (t1 : TxContext)
    (hdec : R.decode_call co b.with_tx tx index = .ok (some call))
    (hcall : dispatch_tx_call R co b.with_tx call = (res, t1))
    (hs : res.is_success = true) :
    dispatch_tx_inner R co b tx index =
      (⟨res, (R.take_weights (R.take_priority t1).2).2.tags,
        (R.take_priority t1).1, (R.take_weights (R.take_priority t1).2).1⟩,
       (R.take_weights (R.take_priority t1).2).2.messages,
       { b with state := (R.take_weights (R.take_priority t1).2).2.state }) := by
  unfold dispatch_tx_inner
  rw [hdec]
  simp [hcall, hs, BatchContext.commit_tx]

/-- Exhaustive case shape of `dispatch_tx`: authentication failure returns
the synthesized failed result with the context untouched; otherwise an
aborted inner result propagates as `Err` with the context untouched, and any
other inner result is returned with the inner messages forwarded. -/
theorem dispatch_tx_cases (R : RuntimeModel) (co : Bool) (b : BatchContext)
    (tx : Tx) (index : Nat) :
    (∃ e, R.authenticate_tx co b tx = some e ∧
       dispatch_tx R co b tx index = (.ok (DispatchResult.fromCallResult e), b)) ∨
    (R.authenticate_tx co b tx = none ∧
      ((∃ e, (dispatch_tx_inner R co b tx index).1.result = .aborted e ∧
         dispatch_tx R co b tx index = (.error e, b)) ∨
       ((∀ e, (dispatch_tx_inner R co b tx index).1.result ≠ .aborted e) ∧
         dispatch_tx R co b tx index =
           (.ok (dispatch_tx_inner R co b tx index).1,
            ((dispatch_tx_inner R co b tx index).2.2).emit_messages
              (dispatch_tx_inner R co b tx index).2.1)))) := by
  unfold dispatch_tx
  cases hauth : R.authenticate_tx co b tx with
  | some e => exact .inl ⟨e, rfl, rfl⟩
  | none =>
    refine .inr ⟨rfl, ?_⟩
    cases hres : (dispatch_tx_inner R co b tx index).1.result with
    | ok v => exact .inr ⟨by simp [hres], rfl⟩
    | failed m c s => exact .inr ⟨by simp [hres], rfl⟩
    | aborted e => exact .inl ⟨e, rfl, rfl⟩

/-- C2: commit policy of `dispatch_tx`.  (discard) Whenever the produced
call result is not `Ok` — authentication failure, decode failure, or a
failed call — the returned `DispatchResult` carries empty tags and the batch
context comes back unchanged: the tx scope's overlay, events/tags and
messages are all dropped; the same holds when the result is fatal
(`Aborted`, the `Err` return).  (flush) When the call succeeds, the batch
context's state becomes exactly the tx scope's final overlay state, the
scope's messages are appended to the batch messages, and the
`DispatchResult` carries the scope's tags — i.e. the scope is flushed via
`commit`. -/
theorem dispatch_tx_commit_policy (R : RuntimeModel) (co : Bool)
    (b : BatchContext) (tx : Tx) (index : Nat) :
    (∀ d b', dispatch_tx R co b tx index = (.ok d, b') →
      d.result.is_success = false → d.tags = [] ∧ b' = b) ∧
    (∀ e b', dispatch_tx R co b tx index = (.error e, b') → b' = b) ∧
    (∀ call res t1,
      R.authenticate_tx co b tx = none →
      R.decode_call co b.with_tx tx index = .ok (some call) →
      dispatch_tx_call R co b.with_tx call = (res, t1) →
      res.is_success = true →
      dispatch_tx R co b tx index =
        (.ok ⟨res, (R.take_weights (R.take_priority t1).2).2.tags,
           (R.take_priority t1).1, (R.take_weights (R.take_priority t1).2).1⟩,
         { b with
            state := (R.take_weights (R.take_priority t1).2).2.state,
            messages := b.messages ++
              (R.take_weights (R.take_priority t1).2).2.messages })) := by
  refine ⟨?_, ?_, ?_⟩
  · intro d b' heq hfail
    rcases dispatch_tx_cases R co b tx index with
      ⟨e, hauth, hdisp⟩ | ⟨hauth, ⟨e, hres, hdisp⟩ | ⟨hnab, hdisp⟩⟩
    · rw [hdisp] at heq
      simp only [Prod.mk.injEq, Except.ok.injEq] at heq
      obtain ⟨hd, hb⟩ := heq
      subst hd
      exact ⟨rfl, hb.symm⟩
    · rw [hdisp] at heq
      simp at heq
    · rw [hdisp] at heq
      simp only [Prod.mk.injEq, Except.ok.injEq] at heq
      obtain ⟨hd, hb⟩ := heq
      have hfail' : (dispatch_tx_inner R co b tx index).1.result.is_success = false := by
        rw [hd]; exact hfail
      obtain ⟨ht, hm, hc⟩ := dispatch_tx_inner_discard R co b tx index hfail'
      constructor
      · rw [← hd]; exact ht
      · rw [← hb, hm, hc, emit_messages_nil]
  · intro e b' heq
    rcases dispatch_tx_cases R co b tx index with
      ⟨e', hauth, hdisp⟩ | ⟨hauth, ⟨e', hres, hdisp⟩ | ⟨hnab, hdisp⟩⟩
    · rw [hdisp] at heq
      simp at heq
    · rw [hdisp] at heq
      simp only [Prod.mk.injEq, Except.error.injEq] at heq
      exact heq.2.symm
    · rw [hdisp] at heq
      simp at heq
  · intro call res t1 hauth hdec hcall hs
    have hin := dispatch_tx_inner_flush R co b tx index call res t1 hdec hcall hs
    rcases dispatch_tx_cases R co b tx index with
      ⟨e, hauth', hdisp⟩ | ⟨hauth', ⟨e, hres, hdisp⟩ | ⟨hnab, hdisp⟩⟩
    · rw [hauth] at hauth'
      cases hauth'
    · rw [hin] at hres
      have hres' : res = .aborted e := hres
      subst hres'
      simp [CallResult.is_success] at hs
    · rw [hdisp, hin]
      simp [BatchContext.emit_messages]

/-- A concrete runtime model for witnesses: the handler writes a key,
appends a tag and emits one message on success. -/
def cRtOk : RuntimeModel :=
  { authenticate_tx := fun _ _ _ => none
    decode_call := fun _ _ tx _ => .ok (some tx.body)
    before_handle_call := fun _ _ _ => none
    dispatch_call := fun _ t call =>
      (.ok call,
       { t with
          state := (call, call) :: t.state
          tags := t.tags ++ [call]
          messages := t.messages ++ [⟨call, ⟨"hook", call⟩⟩] })
    take_priority := fun t => (t.priority, t)
    take_weights := fun t => (t.weights, t)
    migrate := id
    message_phase := fun b => .ok b
    begin_block := id
    end_block := id }

/-- Witness: `dispatch_tx_commit_policy` evaluated at `cRtOk`, the empty
batch context and a concrete transaction. -/
theorem dispatch_tx_commit_policy_witness :
    (∀ d b', dispatch_tx cRtOk false ⟨[], [], []⟩ ⟨1, 4⟩ 0 = (.ok d, b') →
      d.result.is_success = false → d.tags = [] ∧ b' = ⟨[], [], []⟩) ∧
    (∀ e b', dispatch_tx cRtOk false ⟨[], [], []⟩ ⟨1, 4⟩ 0 = (.error e, b') →
      b' = ⟨[], [], []⟩) ∧
    (∀ call res t1,
      cRtOk.authenticate_tx false ⟨[], [], []⟩ ⟨1, 4⟩ = none →
      cRtOk.decode_call false (BatchContext.with_tx ⟨[], [], []⟩) ⟨1, 4⟩ 0 =
        .ok (some call) →
      dispatch_tx_call cRtOk false (BatchContext.with_tx ⟨[], [], []⟩) call =
        (res, t1) →
      res.is_success = true →
      dispatch_tx cRtOk false ⟨[], [], []⟩ ⟨1, 4⟩ 0 =
        (.ok ⟨res, (cRtOk.take_weights (cRtOk.take_priority t1).2).2.tags,
           (cRtOk.take_priority t1).1,
           (cRtOk.take_weights (cRtOk.take_priority t1).2).1⟩,
         { (⟨[], [], []⟩ : BatchContext) with
            state := (cRtOk.take_weights (cRtOk.take_priority t1).2).2.state,
            messages := (⟨[], [], []⟩ : BatchContext).messages ++
              (cRtOk.take_weights (cRtOk.take_priority t1).2).2.messages })) :=
  dispatch_tx_commit_policy cRtOk false ⟨[], [], []⟩ ⟨1, 4⟩ 0

/-- A call result of `Aborted` makes the tx-scope body's result `Aborted`
(the non-success branch keeps the call result with empty tags). -/
theorem dispatch_tx_inner_abort (R : RuntimeModel) (co : Bool)
    (b : BatchContext) (tx : Tx) (index : Nat) (call : Nat) (t1 : TxContext)
    (e : Nat)
    (hdec : R.decode_call co b.with_tx tx index = .ok (some call))
    (hcall : dispatch_tx_call R co b.with_tx call = (.aborted e, t1)) :
    (dispatch_tx_inner R co b tx index).1.result = .aborted e := by
  unfold dispatch_tx_inner
  rw [hdec]
  simp [hcall, CallResult.is_success, DispatchResult.fromCallResult]

/-- If a prefix of the loop succeeds and the next transaction's execution is
fatal, the whole `execute_txs` loop is fatal with that error (no partial
result list survives). -/
theorem execute_txs_prefix_abort (R : RuntimeModel) (b : BatchContext)
    (l₁ : List Tx) (tx' : Tx) (l₂ : List Tx) (i : Nat)
    (rs : List ExecuteTxResult) (b' : BatchContext) (e : Nat)
    (h1 : execute_txs R b l₁ i = .ok (rs, b'))
    (h2 : (execute_tx R b' tx' (i + l₁.length)).1 = .error e) :
    execute_txs R b (l₁ ++ tx' :: l₂) i = .error e := by
  induction l₁ generalizing b i rs with
  | nil =>
    simp only [execute_txs, Except.ok.injEq, Prod.mk.injEq] at h1
    obtain ⟨hrs, hb⟩ := h1
    subst hb
    simp only [List.length_nil, Nat.add_zero] at h2
    simp only [List.nil_append, execute_txs]
    rcases hx : execute_tx R b tx' i with ⟨r, bx⟩
    rw [hx] at h2
    cases r with
    | error e' =>
      have he : e' = e := by simpa using h2
      subst he
      rfl
    | ok rr => simp at h2
  | cons t rest ih =>
    simp only [execute_txs] at h1
    simp only [List.cons_append, execute_txs]
    rcases hx : execute_tx R b t i with ⟨r, bx⟩
    rw [hx] at h1
    cases r with
    | error e' => simp at h1
    | ok rr =>
      dsimp only at h1 ⊢
      rcases hy : execute_txs R bx rest (i + 1) with e'' | p
      · rw [hy] at h1
        simp [Except.map] at h1
      · rw [hy] at h1
        simp only [Except.map, Except.ok.injEq, Prod.mk.injEq] at h1
        obtain ⟨hrs, hb⟩ := h1
        have h2' : (execute_tx R b' tx' (i + 1 + rest.length)).1 = .error e := by
          have harith : i + 1 + rest.length = i + (t :: rest).length := by
            simp only [List.length_cons]
            omega
          rw [harith]
          exact h2
        have hloop : execute_txs R bx (rest ++ tx' :: l₂) (i + 1) = .error e := by
          refine ih bx (i + 1) p.1 ?_ h2'
          rw [hy, ← hb]
        change Except.map (fun p => (rr :: p.1, p.2))
          (execute_txs R bx (rest ++ tx' :: l₂) (i + 1)) = Except.error e
        rw [hloop]
        rfl

/-- C7: abort propagation.  If dispatching a transaction's call produces
`CallResult::Aborted(e)`, then `dispatch_tx` returns `Err(e)` instead of a
per-transaction result; and inside `execute_batch`, a transaction whose call
aborts after a successfully executed prefix makes the whole batch fail with
`Err(e)` — no `ExecuteBatchResult` with partial results is returned. -/
theorem abort_propagation (R : RuntimeModel) :
    (∀ b tx index call t1 e,
      R.authenticate_tx false b tx = none →
      R.decode_call false b.with_tx tx index = .ok (some call) →
      dispatch_tx_call R false b.with_tx call = (.aborted e, t1) →
      dispatch_tx R false b tx index = (.error e, b)) ∧
    (∀ b0 txs₁ tx' txs₂ b2 rs b' call t1 e,
      R.message_phase (R.migrate b0) = .ok b2 →
      execute_txs R (R.begin_block b2) txs₁ 0 = .ok (rs, b') →
      R.authenticate_tx false b' tx' = none →
      R.decode_call false b'.with_tx tx' txs₁.length = .ok (some call) →
      dispatch_tx_call R false b'.with_tx call = (.aborted e, t1) →
      execute_batch R b0 (txs₁ ++ tx' :: txs₂) = .error e) := by
  have hdispatch : ∀ b tx index call t1 e,
      R.authenticate_tx false b tx = none →
      R.decode_call false b.with_tx tx index = .ok (some call) →
      dispatch_tx_call R false b.with_tx call = (.aborted e, t1) →
      dispatch_tx R false b tx index = (.error e, b) := by
    intro b tx index call t1 e hauth hdec hcall
    have habort := dispatch_tx_inner_abort R false b tx index call t1 e hdec hcall
    rcases dispatch_tx_cases R false b tx index with
      ⟨e', hauth', hdisp⟩ | ⟨hauth', ⟨e', hres, hdisp⟩ | ⟨hnab, hdisp⟩⟩
    · rw [hauth] at hauth'
      cases hauth'
    · rw [habort] at hres
      have : e = e' := by
        injection hres
      subst this
      exact hdisp
    · exact absurd habort (hnab e)
  refine ⟨hdispatch, ?_⟩
  intro b0 txs₁ tx' txs₂ b2 rs b' call t1 e hphase hloop hauth hdec hcall
  have htx : (execute_tx R b' tx' (0 + txs₁.length)).1 = .error e := by
    have hd := hdispatch b' tx' txs₁.length call t1 e hauth hdec hcall
    simp only [Nat.zero_add]
    simp [execute_tx, hd]
  have habort := execute_txs_prefix_abort R (R.begin_block b2) txs₁ tx' txs₂ 0
    rs b' e hloop htx
  unfold execute_batch
  rw [hphase]
  simp only [habort]

/-- A concrete runtime whose call handler aborts with dispatcher error 9. -/
def cRtAb : RuntimeModel :=
  { authenticate_tx := fun _ _ _ => none
    decode_call := fun _ _ tx _ => .ok (some tx.body)
    before_handle_call := fun _ _ _ => none
    dispatch_call := fun _ t _ => (.aborted 9, t)
    take_priority := fun t => (t.priority, t)
    take_weights := fun t => (t.weights, t)
    migrate := id
    message_phase := fun b => .ok b
    begin_block := id
    end_block := id }

/-- Witness: `abort_propagation` evaluated at `cRtAb` on a one-transaction
batch. -/
theorem abort_propagation_witness :
    dispatch_tx cRtAb false ⟨[], [], []⟩ ⟨1, 4⟩ 0 = (.error 9, ⟨[], [], []⟩) ∧
    execute_batch cRtAb ⟨[], [], []⟩ [⟨1, 4⟩] = .error 9 :=
  ⟨(abort_propagation cRtAb).1 ⟨[], [], []⟩ ⟨1, 4⟩ 0 4
      (BatchContext.with_tx ⟨[], [], []⟩) 9 rfl rfl rfl,
   (abort_propagation cRtAb).2 ⟨[], [], []⟩ [] ⟨1, 4⟩ [] ⟨[], [], []⟩ []
      ⟨[], [], []⟩ 4 (BatchContext.with_tx ⟨[], [], []⟩) 9 rfl rfl rfl rfl rfl⟩

/-- Mode-insensitive before/dispatch hooks make `dispatch_tx_call`
mode-insensitive. -/
theorem dispatch_tx_call_mode (R : RuntimeModel) (t : TxContext) (call : Nat)
    (hBefore : ∀ t c, R.before_handle_call true t c = R.before_handle_call false t c)
    (hCall : ∀ t c, R.dispatch_call true t c = R.dispatch_call false t c) :
    dispatch_tx_call R true t call = dispatch_tx_call R false t call := by
  unfold dispatch_tx_call
  rw [hBefore]
  cases R.before_handle_call false t call with
  | none => exact hCall t call
  | some e => rfl

/-- Mode- and index-insensitive hooks make the tx-scope body insensitive to
check mode and to the sentinel index. -/
theorem dispatch_tx_inner_mode (R : RuntimeModel) (b : BatchContext) (tx : Tx)
    (i : Nat)
    (hDec : ∀ t tx i j co co', R.decode_call co t tx i = R.decode_call co' t tx j)
    (hBefore : ∀ t c, R.before_handle_call true t c = R.before_handle_call false t c)
    (hCall : ∀ t c, R.dispatch_call true t c = R.dispatch_call false t c) :
    dispatch_tx_inner R true b tx USIZE_MAX = dispatch_tx_inner R false b tx i := by
  unfold dispatch_tx_inner
  rw [hDec b.with_tx tx USIZE_MAX i true false]
  cases R.decode_call false b.with_tx tx i with
  | error e => rfl
  | ok o =>
    cases o with
    | none => rfl
    | some call =>
      simp only [dispatch_tx_call_mode R b.with_tx call hBefore hCall]

/-- Mode- and index-insensitive hooks make `dispatch_tx` agree between the
check path (`check mode, usize::MAX`) and the execute path. -/
theorem dispatch_tx_mode (R : RuntimeModel) (b : BatchContext) (tx : Tx)
    (i : Nat)
    (hAuth : ∀ b tx, R.authenticate_tx true b tx = R.authenticate_tx false b tx)
    (hDec : ∀ t tx i j co co', R.decode_call co t tx i = R.decode_call co' t tx j)
    (hBefore : ∀ t c, R.before_handle_call true t c = R.before_handle_call false t c)
    (hCall : ∀ t c, R.dispatch_call true t c = R.dispatch_call false t c) :
    dispatch_tx R true b tx USIZE_MAX = dispatch_tx R false b tx i := by
  unfold dispatch_tx
  rw [hAuth b tx, dispatch_tx_inner_mode R b tx i hDec hBefore hCall]

/-- Under mode/index-insensitive hooks whose authentication never produces
an abort-flavoured error, the check loop and the execute loop agree: same
fatal error, or the same per-transaction Ok-versus-Failed outcomes with the
same final context. -/
theorem check_execute_loop_agree (R : RuntimeModel)
    (hAuth : ∀ b tx, R.authenticate_tx true b tx = R.authenticate_tx false b tx)
    (hAA : ∀ b tx e, R.authenticate_tx false b tx ≠ some (.aborted e))
    (hDec : ∀ t tx i j co co', R.decode_call co t tx i = R.decode_call co' t tx j)
    (hBefore : ∀ t c, R.before_handle_call true t c = R.before_handle_call false t c)
    (hCall : ∀ t c, R.dispatch_call true t c = R.dispatch_call false t c) :
    ∀ txs b i,
      (check_txs R b txs).map
          (fun p => (p.1.map CheckTxResult.outcome_ok, p.2)) =
        (execute_txs R b txs i).map
          (fun p => (p.1.map ExecuteTxResult.outcome_ok, p.2)) := by
  intro txs
  induction txs with
  | nil => intro b i; rfl
  | cons tx rest ih =>
    intro b i
    have hdx := dispatch_tx_mode R b tx i hAuth hDec hBefore hCall
    simp only [check_txs, execute_txs, check_tx, execute_tx, hdx]
    rcases hd : dispatch_tx R false b tx i with ⟨r, b'⟩
    cases r with
    | error e => rfl
    | ok d =>
      have hnotab : ∀ e, d.result ≠ .aborted e := by
        rcases dispatch_tx_cases R false b tx i with
          ⟨e', hauth', hdisp⟩ | ⟨hauth', ⟨e', hres, hdisp⟩ | ⟨hnab, hdisp⟩⟩
        · rw [hd] at hdisp
          simp only [Prod.mk.injEq, Except.ok.injEq] at hdisp
          intro e heq
          apply hAA b tx e
          rw [hauth']
          have he' : e' = d.result := by rw [hdisp.1]; rfl
          rw [he', heq]
        · rw [hd] at hdisp
          simp at hdisp
        · rw [hd] at hdisp
          simp only [Prod.mk.injEq, Except.ok.injEq] at hdisp
          intro e heq
          exact hnab e (by rw [← hdisp.1]; exact heq)
      obtain ⟨dres, dtags, dprio, dw⟩ := d
      cases dres with
      | ok v =>
        show Except.map (fun p => (List.map CheckTxResult.outcome_ok p.1, p.2))
            (Except.map
              (fun p =>
                (({ error := none, meta := some (dprio, dw) } : CheckTxResult) :: p.1, p.2))
              (check_txs R b' rest)) =
          Except.map (fun p => (List.map ExecuteTxResult.outcome_ok p.1, p.2))
            (Except.map
              (fun p =>
                (({ output := CallResult.ok v, tags := dtags } : ExecuteTxResult) :: p.1, p.2))
              (execute_txs R b' rest (i + 1)))
        have hrec := ih b' (i + 1)
        rcases hc : check_txs R b' rest with ec | pc
        · rcases he : execute_txs R b' rest (i + 1) with ee | pe
          · rw [hc, he] at hrec
            simp only [Except.map] at hrec ⊢
            exact hrec
          · rw [hc, he] at hrec
            simp only [Except.map] at hrec
            exact Except.noConfusion hrec
        · rcases he : execute_txs R b' rest (i + 1) with ee | pe
          · rw [hc, he] at hrec
            simp only [Except.map] at hrec
            exact Except.noConfusion hrec
          · rw [hc, he] at hrec
            simp only [Except.map, Except.ok.injEq, Prod.mk.injEq] at hrec ⊢
            refine ⟨?_, hrec.2⟩
            simp only [List.map_cons, hrec.1]
            rfl
      | failed m c s =>
        show Except.map (fun p => (List.map CheckTxResult.outcome_ok p.1, p.2))
            (Except.map
              (fun p =>
                (({ error := some (m, c, s), meta := none } : CheckTxResult) :: p.1, p.2))
              (check_txs R b' rest)) =
          Except.map (fun p => (List.map ExecuteTxResult.outcome_ok p.1, p.2))
            (Except.map
              (fun p =>
                (({ output := CallResult.failed m c s, tags := dtags } : ExecuteTxResult) ::
                  p.1, p.2))
              (execute_txs R b' rest (i + 1)))
        have hrec := ih b' (i + 1)
        rcases hc : check_txs R b' rest with ec | pc
        · rcases he : execute_txs R b' rest (i + 1) with ee | pe
          · rw [hc, he] at hrec
            simp only [Except.map] at hrec ⊢
            exact hrec
          · rw [hc, he] at hrec
            simp only [Except.map] at hrec
            exact Except.noConfusion hrec
        · rcases he : execute_txs R b' rest (i + 1) with ee | pe
          · rw [hc, he] at hrec
            simp only [Except.map] at hrec
            exact Except.noConfusion hrec
          · rw [hc, he] at hrec
            simp only [Except.map, Except.ok.injEq, Prod.mk.injEq] at hrec ⊢
            refine ⟨?_, hrec.2⟩
            simp only [List.map_cons, hrec.1]
            rfl
      | aborted e2 => exact absurd rfl (hnotab e2)

/-- A runtime whose single call handler mirrors the `is_check_only` branches
of `consensus_accounts::Module::withdraw`
(src/runtime-sdk/src/modules/consensus_accounts/mod.rs, lines 194-231): in
check mode it only validates convertibility (no balance check, `Ok`); in
execute mode it performs the escrow transfer, failing with
`InsufficientWithdrawBalance` (code 3) when the signer balance (stored under
key 0) is below the withdrawn amount. -/
def cRtWd : RuntimeModel :=
  { authenticate_tx := fun _ _ _ => none
    decode_call := fun _ _ tx _ => .ok (some tx.body)
    before_handle_call := fun _ _ _ => none
    dispatch_call := fun co t amount =>
      if co then (.ok 0, t)
      else
        let bal := (((t.state.find? (fun e => e.1 == 0))).map (·.2)).getD 0
        if bal < amount then
          (.failed "consensus_accounts" 3 "withdraw: insufficient runtime balance", t)
        else
          (.ok 0,
           { t with state := (0, bal - amount) :: t.state.filter (fun e => e.1 != 0) })
    take_priority := fun t => (t.priority, t)
    take_weights := fun t => (t.weights, t)
    migrate := id
    message_phase := fun b => .ok b
    begin_block := id
    end_block := id }

/-- C6 counterexample: from the same initial state (signer balance 0), the
batch containing the single withdraw-like transaction `⟨1, 40⟩` passes
`check_batch` (per-tx outcome Ok: the check-only branch skips the balance
check) but fails in `execute_batch` (per-tx outcome Failed with
`consensus_accounts` code 3) — the per-transaction Ok-versus-Failed outcomes
differ, refuting the claim as stated. -/
theorem check_execute_disagree_withdraw :
    check_batch cRtWd ⟨[], [], []⟩ [⟨1, 40⟩] = .ok [⟨none, some (0, 0)⟩] ∧
    execute_batch cRtWd ⟨[], [], []⟩ [⟨1, 40⟩] =
      .ok ⟨[⟨.failed "consensus_accounts" 3 "withdraw: insufficient runtime balance",
             []⟩], [], []⟩ ∧
    (([⟨none, some (0, 0)⟩] : List CheckTxResult).map CheckTxResult.outcome_ok =
      [true]) ∧
    (([⟨.failed "consensus_accounts" 3 "withdraw: insufficient runtime balance",
        []⟩] : List ExecuteTxResult).map ExecuteTxResult.outcome_ok = [false]) :=
  ⟨rfl, rfl, rfl, rfl⟩

/-- Running `execute_batch` with a fatal per-transaction loop propagates the error. -/
theorem execute_batch_eq_error (R : RuntimeModel) (b0 : BatchContext)
    (txs : List Tx) (b2 : BatchContext) (e : Nat)
    (hphase : R.message_phase (R.migrate b0) = .ok b2)
    (hloop : execute_txs R (R.begin_block b2) txs 0 = .error e) :
    execute_batch R b0 txs = .error e := by
  unfold execute_batch
  rw [hphase]
  show (match execute_txs R (R.begin_block b2) txs 0 with
    | Except.error e => Except.error e
    | Except.ok (rs, b4) =>
      Except.ok (⟨rs, (R.end_block b4).messages, (R.end_block b4).blockTags⟩ :
        ExecuteBatchResult)) = Except.error e
  rw [hloop]

/-- Running `execute_batch` with a successful per-transaction loop returns the
results with the end-of-block context's messages and tags. -/
theorem execute_batch_eq_ok (R : RuntimeModel) (b0 : BatchContext)
    (txs : List Tx) (b2 : BatchContext) (rs : List ExecuteTxResult)
    (b4 : BatchContext)
    (hphase : R.message_phase (R.migrate b0) = .ok b2)
    (hloop : execute_txs R (R.begin_block b2) txs 0 = .ok (rs, b4)) :
    execute_batch R b0 txs =
      .ok ⟨rs, (R.end_block b4).messages, (R.end_block b4).blockTags⟩ := by
  unfold execute_batch
  rw [hphase]
  show (match execute_txs R (R.begin_block b2) txs 0 with
    | Except.error e => Except.error e
    | Except.ok (rs, b4) =>
      Except.ok (⟨rs, (R.end_block b4).messages, (R.end_block b4).blockTags⟩ :
        ExecuteBatchResult)) =
    Except.ok ⟨rs, (R.end_block b4).messages, (R.end_block b4).blockTags⟩
  rw [hloop]

/-- C6 (amended): when the module hooks are insensitive to the check-only
mode and to the transaction index, authentication never yields an
abort-flavoured error, and the execute-only pre-phases (previous-round
message handling and `begin_block`) leave the post-migration state unchanged,
then running `check_batch(B)` and `execute_batch(B)` from the same initial
state yields the same per-transaction Ok-versus-Failed outcome for every
transaction of the batch (priority and weight metadata ignored). -/
theorem check_then_execute_same_outcomes (R : RuntimeModel)
    (b0 : BatchContext) (txs : List Tx)
    (hAuth : ∀ b tx, R.authenticate_tx true b tx = R.authenticate_tx false b tx)
    (hAA : ∀ b tx e, R.authenticate_tx false b tx ≠ some (.aborted e))
    (hDec : ∀ t tx i j co co', R.decode_call co t tx i = R.decode_call co' t tx j)
    (hBefore : ∀ t c, R.before_handle_call true t c = R.before_handle_call false t c)
    (hCall : ∀ t c, R.dispatch_call true t c = R.dispatch_call false t c)
    (hPhase : R.message_phase (R.migrate b0) = .ok (R.migrate b0))
    (hBegin : R.begin_block (R.migrate b0) = R.migrate b0) :
    (check_batch R b0 txs).map (fun rs => rs.map CheckTxResult.outcome_ok) =
      (execute_batch R b0 txs).map
        (fun r => r.results.map ExecuteTxResult.outcome_ok) := by
  have hloop := check_execute_loop_agree R hAuth hAA hDec hBefore hCall txs
    (R.migrate b0) 0
  unfold check_batch
  rcases hc : check_txs R (R.migrate b0) txs with e | p
  · rw [hc] at hloop
    rcases he : execute_txs R (R.migrate b0) txs 0 with e' | q
    · rw [he] at hloop
      simp only [Except.map] at hloop
      have hee : e = e' := Except.error.inj hloop
      subst hee
      have hexec := execute_batch_eq_error R b0 txs (R.migrate b0) e hPhase
        (by rw [hBegin]; exact he)
      rw [hexec]
      rfl
    · rw [he] at hloop
      simp only [Except.map] at hloop
      exact Except.noConfusion hloop
  · rw [hc] at hloop
    rcases he : execute_txs R (R.migrate b0) txs 0 with e' | q
    · rw [he] at hloop
      simp only [Except.map] at hloop
      exact Except.noConfusion hloop
    · rw [he] at hloop
      simp only [Except.map, Except.ok.injEq, Prod.mk.injEq] at hloop
      have hexec := execute_batch_eq_ok R b0 txs (R.migrate b0) q.1 q.2 hPhase
        (by rw [hBegin, he])
      rw [hexec]
      simp only [Except.map]
      exact congrArg Except.ok hloop.1

/-- A concrete mode- and index-insensitive runtime: the handler succeeds on
even call bodies and fails on odd ones, in both check and execute mode. -/
def cRtIns : RuntimeModel :=
  { authenticate_tx := fun _ _ _ => none
    decode_call := fun _ _ tx _ => .ok (some tx.body)
    before_handle_call := fun _ _ _ => none
    dispatch_call := fun _ t call =>
      (if call % 2 == 0 then .ok call else .failed "m" 1 "odd", t)
    take_priority := fun t => (t.priority, t)
    take_weights := fun t => (t.weights, t)
    migrate := id
    message_phase := fun b => .ok b
    begin_block := id
    end_block := id }

/-- Witness: `check_then_execute_same_outcomes` evaluated at `cRtIns` on a
two-transaction batch. -/
theorem check_then_execute_same_outcomes_witness :
    (check_batch cRtIns ⟨[], [], []⟩ [⟨1, 2⟩, ⟨1, 3⟩]).map
        (fun rs => rs.map CheckTxResult.outcome_ok) =
      (execute_batch cRtIns ⟨[], [], []⟩ [⟨1, 2⟩, ⟨1, 3⟩]).map
        (fun r => r.results.map ExecuteTxResult.outcome_ok) :=
  check_then_execute_same_outcomes cRtIns ⟨[], [], []⟩ [⟨1, 2⟩, ⟨1, 3⟩]
    (fun _ _ => rfl) (fun _ _ _ h => by simp [cRtIns] at h)
    (fun _ _ _ _ _ _ => rfl) (fun _ _ => rfl) (fun _ _ => rfl) rfl rfl

/-! ## Consensus accounts module
(runtime-sdk/src/modules/consensus_accounts/mod.rs)

The `Accounts` and `Consensus` module APIs this module calls are not among
the sources; they are modelled from the spec: balances as a single-
denomination map, `Consensus::transfer`/`Consensus::withdraw` emitting an
outbound consensus message with a result hook and accounting one
consensus-message weight, and amount conversion (`amount_to_consensus`) as
a partial function `conv`. -/

/-- Runtime addresses, abstracted. -/
abbrev Addr := Nat

/-- Single-denomination balance table. -/
abbrev Balances := List (Addr × Nat)

/-- Balance of an address (absent means zero). -/
def balOf (bs : Balances) (a : Addr) : Nat :=
  ((bs.find? (fun e => e.1 == a)).map (·.2)).getD 0

/-- Write a balance. -/
def setBal (bs : Balances) (a : Addr) (n : Nat) : Balances :=
  (a, n) :: bs.filter (fun e => e.1 != a)

/-- Modelled from the spec: `Accounts::transfer` moves `amount` between
accounts and fails when the source balance is insufficient. -/
def acctTransfer (bs : Balances) (src dst : Addr) (amount : Nat) :
    Option Balances :=
  if balOf bs src < amount then none
  else
    let bs1 := setBal bs src (balOf bs src - amount)
    some (setBal bs1 dst (balOf bs1 dst + amount))

/-- Modelled from the spec: `Accounts::burn`. -/
def acctBurn (bs : Balances) (a : Addr) (amount : Nat) : Option Balances :=
  if balOf bs a < amount then none
  else some (setBal bs a (balOf bs a - amount))

/-- Model of `ADDRESS_PENDING_WITHDRAWAL`
(`Address::from_module("consensus_accounts", "pending-withdrawal")`),
abstracted as a distinguished address constant. -/
def ADDRESS_PENDING_WITHDRAWAL : Addr := 999

/-- Model of `CONSENSUS_TRANSFER_HANDLER`. -/
def CONSENSUS_TRANSFER_HANDLER : String := "consensus.TransferFromRuntime"

/-- Model of `CONSENSUS_WITHDRAW_HANDLER`. -/
def CONSENSUS_WITHDRAW_HANDLER : String := "consensus.WithdrawIntoRuntime"

/-- Model of `types::ConsensusTransferContext` `{to, nonce, address, amount}`. -/
structure ConsensusTransferContext where
  dst : Addr
  nonce : Nat
  address : Addr
  amount : Nat
  deriving DecidableEq, Repr

/-- Model of `types::ConsensusWithdrawContext` `{from, nonce, address, amount}`. -/
structure ConsensusWithdrawContext where
  from_ : Addr
  nonce : Nat
  address : Addr
  amount : Nat
  deriving DecidableEq, Repr

/-- Persisted payload of an emitted consensus-accounts hook. -/
inductive CAPayload
  | transferCtx (c : ConsensusTransferContext)
  | withdrawCtx (c : ConsensusWithdrawContext)
  deriving DecidableEq, Repr

/-- Outbound consensus messages emitted by this module. -/
inductive ConsensusMsg
  | transfer (dst : Addr) (amount : Nat)
  | withdraw (from_ : Addr) (amount : Nat)
  deriving DecidableEq, Repr

/-- Model of `consensus_accounts::Event` (`error = none` means success). -/
inductive CAEvent
  | deposit (from_ : Addr) (nonce : Nat) (dst : Addr) (amount : Nat)
      (error : Option Nat)
  | withdraw (from_ : Addr) (nonce : Nat) (dst : Addr) (amount : Nat)
      (error : Option Nat)
  deriving DecidableEq, Repr

/-- Model of `consensus_accounts::Error`. -/
inductive CAError
  | invalidArgument
  | invalidDenomination
  | insufficientWithdrawBalance
  | consensus (code : Nat)
  | core (code : Nat)
  deriving DecidableEq, Repr

/-- Module-visible context state: runtime balances, emitted messages with
their hooks, emitted events, the consensus-message weight counter. -/
structure CACtx where
  balances : Balances
  messages : List (ConsensusMsg × String × CAPayload)
  events : List CAEvent
  weight : Nat
  deriving DecidableEq, Repr

/-- Modelled from the spec: `Consensus::transfer` converts the amount to
consensus units, emits an outbound `Transfer` message with the given result
hook, and accounts one consensus-message weight. -/
def consensusTransfer (conv : Nat → Option Nat) (st : CACtx) (dst : Addr)
    (amount : Nat) (hookName : String) (payload : CAPayload) :
    Except CAError CACtx :=
  match conv amount with
  | none => .error (.consensus 0)
  | some c =>
    .ok { st with
      messages := st.messages ++ [(ConsensusMsg.transfer dst c, hookName, payload)]
      weight := st.weight + 1 }

/-- Modelled from the spec: `Consensus::withdraw` (pull from the consensus
account into the runtime) emits an outbound `Withdraw` message. -/
def consensusWithdraw (conv : Nat → Option Nat) (st : CACtx) (from_ : Addr)
    (amount : Nat) (hookName : String) (payload : CAPayload) :
    Except CAError CACtx :=
  match conv amount with
  | none => .error (.consensus 0)
  | some c =>
    .ok { st with
      messages := st.messages ++ [(ConsensusMsg.withdraw from_ c, hookName, payload)]
      weight := st.weight + 1 }

/-- Model of `Module::deposit` (mod.rs lines 155-192): check-only accounts the weight
and validates convertibility; otherwise `Consensus::withdraw` is invoked
with the `consensus.WithdrawIntoRuntime` hook — no local balance change. -/
def caDeposit (conv : Nat → Option Nat) (checkOnly : Bool) (st : CACtx)
    (from_ : Addr) (nonce : Nat) (dst : Addr) (amount : Nat) :
    Except CAError CACtx :=
  if checkOnly then
    match conv amount with
    | none => .error (.consensus 0)
    | some _ => .ok { st with weight := st.weight + 1 }
  else
    consensusWithdraw conv st from_ amount CONSENSUS_WITHDRAW_HANDLER
      (.withdrawCtx ⟨from_, nonce, dst, amount⟩)

/-- Model of `Module::withdraw` (mod.rs lines 194-231): check-only accounts the
weight and validates convertibility; otherwise the amount is immediately
transferred from `from` to `ADDRESS_PENDING_WITHDRAWAL` (failing with
`InsufficientWithdrawBalance`), then `Consensus::transfer` emits the
outbound `Transfer` message with the `consensus.TransferFromRuntime` hook. -/
def caWithdraw (conv : Nat → Option Nat) (checkOnly : Bool) (st : CACtx)
    (from_ : Addr) (nonce : Nat) (dst : Addr) (amount : Nat) :
    Except CAError CACtx :=
  if checkOnly then
    match conv amount with
    | none => .error (.consensus 0)
    | some _ => .ok { st with weight := st.weight + 1 }
  else
    match acctTransfer st.balances from_ ADDRESS_PENDING_WITHDRAWAL amount with
    | none => .error .insufficientWithdrawBalance
    | some bs =>
      consensusTransfer conv { st with balances := bs } dst amount
        CONSENSUS_TRANSFER_HANDLER (.transferCtx ⟨dst, nonce, from_, amount⟩)

/-- Model of `Module::message_result_transfer` (mod.rs lines 291-329): on failure the
escrowed amount is refunded from `ADDRESS_PENDING_WITHDRAWAL` back to the
withdrawing account and a `Withdraw` event with `error = some _` is emitted;
on success the escrow is burned and `error = none`.  `none` models the
`expect("should have enough balance")` panics. -/
def message_result_transfer (st : CACtx) (success : Bool)
    (c : ConsensusTransferContext) : Option CACtx :=
  if !success then
    match acctTransfer st.balances ADDRESS_PENDING_WITHDRAWAL c.address c.amount with
    | none => none
    | some bs =>
      some { st with
        balances := bs
        events := st.events ++ [.withdraw c.address c.nonce c.dst c.amount (some 1)] }
  else
    match acctBurn st.balances ADDRESS_PENDING_WITHDRAWAL c.amount with
    | none => none
    | some bs =>
      some { st with
        balances := bs
        events := st.events ++ [.withdraw c.address c.nonce c.dst c.amount none] }

/-- Reading the balance just written. -/
theorem balOf_setBal_same (bs : Balances) (a : Addr) (n : Nat) :
    balOf (setBal bs a n) a = n := by
  simp [balOf, setBal]

/-- The lookup `find?` ignores entries removed by a filter on a different address. -/
theorem find?_filter_ne (bs : Balances) (a b : Addr) (hne : b ≠ a) :
    (bs.filter (fun e => e.1 != a)).find? (fun e => e.1 == b) =
      bs.find? (fun e => e.1 == b) := by
  induction bs with
  | nil => rfl
  | cons x rest ih =>
    obtain ⟨k, v⟩ := x
    by_cases hk : k = a
    · subst hk
      have hkb : (k == b) = false := by
        simp [Ne.symm hne]
      simp [List.filter_cons, List.find?_cons, hkb, ih]
    · by_cases hb : k = b
      · subst hb
        simp [List.filter_cons, List.find?_cons, hk]
      · have hkb : (k == b) = false := by simp [hb]
        simp [List.filter_cons, List.find?_cons, hk, hkb, ih]

/-- Writing one address does not change another address's balance. -/
theorem balOf_setBal_other (bs : Balances) (a b : Addr) (n : Nat)
    (hne : b ≠ a) : balOf (setBal bs a n) b = balOf bs b := by
  unfold balOf setBal
  rw [List.find?_cons_of_neg, find?_filter_ne bs a b hne]
  simp [Ne.symm hne]

/-- Evaluation of `Module::withdraw` on the execute path with sufficient
balance: escrow transfer to `ADDRESS_PENDING_WITHDRAWAL` plus the emitted
`Transfer` message with its hook. -/
theorem caWithdraw_exec_eq (conv : Nat → Option Nat) (st : CACtx)
    (A dst : Addr) (nonce amount ca : Nat)
    (hconv : conv amount = some ca)
    (hnlt : ¬ (balOf st.balances A < amount)) :
    caWithdraw conv false st A nonce dst amount = .ok
      { st with
        balances := setBal (setBal st.balances A (balOf st.balances A - amount))
          ADDRESS_PENDING_WITHDRAWAL
          (balOf (setBal st.balances A (balOf st.balances A - amount))
            ADDRESS_PENDING_WITHDRAWAL + amount)
        messages := st.messages ++
          [(ConsensusMsg.transfer dst ca, CONSENSUS_TRANSFER_HANDLER,
            CAPayload.transferCtx ⟨dst, nonce, A, amount⟩)]
        weight := st.weight + 1 } := by
  unfold caWithdraw acctTransfer consensusTransfer
  rw [if_neg hnlt, hconv]
  rfl

/-- Evaluation of `message_result_transfer` on a failed message event with a
sufficiently funded escrow: refund transfer plus the failure event. -/
theorem message_result_transfer_fail_eq (st : CACtx)
    (c : ConsensusTransferContext)
    (hnlt : ¬ (balOf st.balances ADDRESS_PENDING_WITHDRAWAL < c.amount)) :
    message_result_transfer st false c = some
      { st with
        balances := setBal
          (setBal st.balances ADDRESS_PENDING_WITHDRAWAL
            (balOf st.balances ADDRESS_PENDING_WITHDRAWAL - c.amount))
          c.address
          (balOf (setBal st.balances ADDRESS_PENDING_WITHDRAWAL
            (balOf st.balances ADDRESS_PENDING_WITHDRAWAL - c.amount))
            c.address + c.amount)
        events := st.events ++
          [CAEvent.withdraw c.address c.nonce c.dst c.amount (some 1)] } := by
  unfold message_result_transfer acctTransfer
  rw [if_neg hnlt]
  rfl

/-- The failure hook on a funded escrow: the refund credits the withdrawing
account with the amount, debits the escrow by it, and emits the failure
`Withdraw` event. -/
theorem refund_restores (st' : CACtx) (c : ConsensusTransferContext)
    (hne : c.address ≠ ADDRESS_PENDING_WITHDRAWAL)
    (hP : c.amount ≤ balOf st'.balances ADDRESS_PENDING_WITHDRAWAL) :
    ∃ st₂, message_result_transfer st' false c = some st₂ ∧
      balOf st₂.balances c.address = balOf st'.balances c.address + c.amount ∧
      balOf st₂.balances ADDRESS_PENDING_WITHDRAWAL =
        balOf st'.balances ADDRESS_PENDING_WITHDRAWAL - c.amount ∧
      st₂.events = st'.events ++
        [CAEvent.withdraw c.address c.nonce c.dst c.amount (some 1)] := by
  have hnlt : ¬ (balOf st'.balances ADDRESS_PENDING_WITHDRAWAL < c.amount) :=
    not_lt.mpr hP
  refine ⟨_, message_result_transfer_fail_eq st' c hnlt, ?_, ?_, rfl⟩
  · rw [balOf_setBal_same, balOf_setBal_other _ _ _ _ hne]
  · rw [balOf_setBal_other _ _ _ _ (Ne.symm hne), balOf_setBal_same]

/-- C4: for a `consensus.Withdraw` execution with sufficient signer balance,
the amount is immediately transferred from the signer to
`ADDRESS_PENDING_WITHDRAWAL` and an outbound consensus `Transfer` message is
emitted with the `consensus.TransferFromRuntime` result hook; when the
message result then reports failure, the same amount is transferred back
from the escrow to the signer — signer balance and escrow return to their
prior values — and a `Withdraw` event with `error = some _` is emitted. -/
theorem withdraw_escrow_and_failure_refund (conv : Nat → Option Nat)
    (st : CACtx) (A dst : Addr) (nonce amount ca : Nat)
    (hconv : conv amount = some ca)
    (hA : A ≠ ADDRESS_PENDING_WITHDRAWAL)
    (hbal : amount ≤ balOf st.balances A) :
    ∃ st₁, caWithdraw conv false st A nonce dst amount = .ok st₁ ∧
      balOf st₁.balances A = balOf st.balances A - amount ∧
      balOf st₁.balances ADDRESS_PENDING_WITHDRAWAL =
        balOf st.balances ADDRESS_PENDING_WITHDRAWAL + amount ∧
      st₁.messages = st.messages ++
        [(ConsensusMsg.transfer dst ca, CONSENSUS_TRANSFER_HANDLER,
          CAPayload.transferCtx ⟨dst, nonce, A, amount⟩)] ∧
      ∃ st₂, message_result_transfer st₁ false ⟨dst, nonce, A, amount⟩ = some st₂ ∧
        balOf st₂.balances A = balOf st.balances A ∧
        balOf st₂.balances ADDRESS_PENDING_WITHDRAWAL =
          balOf st.balances ADDRESS_PENDING_WITHDRAWAL ∧
        st₂.events = st₁.events ++
          [CAEvent.withdraw A nonce dst amount (some 1)] := by
  have hnlt : ¬ (balOf st.balances A < amount) := not_lt.mpr hbal
  have hPA : ADDRESS_PENDING_WITHDRAWAL ≠ A := Ne.symm hA
  have hb1A : balOf (setBal st.balances A (balOf st.balances A - amount)) A =
      balOf st.balances A - amount := balOf_setBal_same _ _ _
  have hb1P : balOf (setBal st.balances A (balOf st.balances A - amount))
      ADDRESS_PENDING_WITHDRAWAL =
      balOf st.balances ADDRESS_PENDING_WITHDRAWAL :=
    balOf_setBal_other _ _ _ _ hPA
  refine ⟨_, caWithdraw_exec_eq conv st A dst nonce amount ca hconv hnlt,
    ?_, ?_, rfl, ?_⟩
  · rw [balOf_setBal_other _ _ _ _ hA, hb1A]
  · rw [balOf_setBal_same, hb1P]
  · have hP1 : balOf (setBal
        (setBal st.balances A (balOf st.balances A - amount))
        ADDRESS_PENDING_WITHDRAWAL
        (balOf (setBal st.balances A (balOf st.balances A - amount))
          ADDRESS_PENDING_WITHDRAWAL + amount)) ADDRESS_PENDING_WITHDRAWAL =
        balOf st.balances ADDRESS_PENDING_WITHDRAWAL + amount := by
      rw [balOf_setBal_same, hb1P]
    have hA1 : balOf (setBal
        (setBal st.balances A (balOf st.balances A - amount))
        ADDRESS_PENDING_WITHDRAWAL
        (balOf (setBal st.balances A (balOf st.balances A - amount))
          ADDRESS_PENDING_WITHDRAWAL + amount)) A =
        balOf st.balances A - amount := by
      rw [balOf_setBal_other _ _ _ _ hA, hb1A]
    obtain ⟨st₂, hmsg, h2A, h2P, hev⟩ :=
      refund_restores
        { balances := setBal
            (setBal st.balances A (balOf st.balances A - amount))
            ADDRESS_PENDING_WITHDRAWAL
            (balOf (setBal st.balances A (balOf st.balances A - amount))
              ADDRESS_PENDING_WITHDRAWAL + amount)
          messages := st.messages ++
            [(ConsensusMsg.transfer dst ca, CONSENSUS_TRANSFER_HANDLER,
              CAPayload.transferCtx ⟨dst, nonce, A, amount⟩)]
          events := st.events
          weight := st.weight + 1 }
        ⟨dst, nonce, A, amount⟩ hA (by dsimp only; rw [hP1]; omega)
    dsimp only at hmsg h2A h2P hev
    refine ⟨st₂, hmsg, ?_, ?_, hev⟩
    · rw [h2A, hA1]
      omega
    · rw [h2P, hP1]
      omega

/-- Witness: `withdraw_escrow_and_failure_refund` with signer 5 holding 100
units, withdrawing 40 (spec scenario S2). -/
theorem withdraw_escrow_and_failure_refund_witness :
    ∃ st₁, caWithdraw (fun n => some n) false ⟨[(5, 100)], [], [], 0⟩ 5 7 5 40 =
        .ok st₁ ∧
      balOf st₁.balances 5 =
        balOf (⟨[(5, 100)], [], [], 0⟩ : CACtx).balances 5 - 40 ∧
      balOf st₁.balances ADDRESS_PENDING_WITHDRAWAL =
        balOf (⟨[(5, 100)], [], [], 0⟩ : CACtx).balances
          ADDRESS_PENDING_WITHDRAWAL + 40 ∧
      st₁.messages = (⟨[(5, 100)], [], [], 0⟩ : CACtx).messages ++
        [(ConsensusMsg.transfer 5 40, CONSENSUS_TRANSFER_HANDLER,
          CAPayload.transferCtx ⟨5, 7, 5, 40⟩)] ∧
      ∃ st₂, message_result_transfer st₁ false ⟨5, 7, 5, 40⟩ = some st₂ ∧
        balOf st₂.balances 5 =
          balOf (⟨[(5, 100)], [], [], 0⟩ : CACtx).balances 5 ∧
        balOf st₂.balances ADDRESS_PENDING_WITHDRAWAL =
          balOf (⟨[(5, 100)], [], [], 0⟩ : CACtx).balances
            ADDRESS_PENDING_WITHDRAWAL ∧
        st₂.events = st₁.events ++ [CAEvent.withdraw 5 7 5 40 (some 1)] :=
  withdraw_escrow_and_failure_refund (fun n => some n) ⟨[(5, 100)], [], [], 0⟩
    5 5 7 40 40 rfl (by decide) (by decide)

/-! ### Transaction handlers and prefetch (claim C10) -/

/-- Model of `transaction::SignerInfo`: the signer's derived address and nonce. -/
structure SignerInfo where
  address : Addr
  nonce : Nat
  deriving DecidableEq, Repr

/-- Model of `transaction::AuthInfo` (fee omitted). -/
structure AuthInfo where
  signer_info : List SignerInfo
  deriving DecidableEq, Repr

/-- Model of `types::Withdraw` body (`dst` models the optional `to` field). -/
structure WithdrawBody where
  dst : Option Addr
  amount : Nat
  deriving DecidableEq, Repr

/-- Model of `types::Deposit` body. -/
structure DepositBody where
  dst : Option Addr
  amount : Nat
  deriving DecidableEq, Repr

/-- Model of `Core::use_tx_gas`: errors when the remaining gas is insufficient. -/
def use_tx_gas (remaining cost : Nat) : Except CAError Nat :=
  if remaining < cost then .error (.core 1) else .ok (remaining - cost)

/-- Model of `Module::tx_withdraw` (mod.rs lines 251-267): gas charge, then the
unchecked `signer_info[0]` indexing (`none` models the panic), then — only
when `to` is absent — the compatible-signer requirement (`compatOk`
abstracts `Consensus::ensure_compatible_tx_signer`), then `withdraw`. -/
def tx_withdraw (conv : Nat → Option Nat) (gasCost : Nat) (compatOk : Bool)
    (checkOnly : Bool) (remainingGas : Nat) (st : CACtx) (auth : AuthInfo)
    (body : WithdrawBody) : Option (Except CAError (CACtx × Nat)) :=
  match use_tx_gas remainingGas gasCost with
  | .error e => some (.error e)
  | .ok gas' =>
    match auth.signer_info.get? 0 with
    | none => none
    | some signer =>
      if body.dst.isNone && !compatOk then some (.error (.consensus 1))
      else
        some ((caWithdraw conv checkOnly st signer.address signer.nonce
          (body.dst.getD signer.address) body.amount).map (fun st' => (st', gas')))

/-- Model of `Module::tx_deposit` (mod.rs lines 238-248): gas charge, the unchecked
`signer_info[0]` indexing, the unconditional compatible-signer requirement,
then `deposit`. -/
def tx_deposit (conv : Nat → Option Nat) (gasCost : Nat) (compatOk : Bool)
    (checkOnly : Bool) (remainingGas : Nat) (st : CACtx) (auth : AuthInfo)
    (body : DepositBody) : Option (Except CAError (CACtx × Nat)) :=
  match use_tx_gas remainingGas gasCost with
  | .error e => some (.error e)
  | .ok gas' =>
    match auth.signer_info.get? 0 with
    | none => none
    | some signer =>
      if !compatOk then some (.error (.consensus 1))
      else
        some ((caDeposit conv checkOnly st signer.address signer.nonce
          (body.dst.getD signer.address) body.amount).map (fun st' => (st', gas')))

/-- Model of `Module::prefetch` (mod.rs lines 376-402): the `consensus.Withdraw` arm
unconditionally indexes `auth_info.signer_info[0]` (`none` models that
panic); `consensus.Deposit` has nothing to prefetch; other methods pass
through unhandled. -/
def ca_prefetch (method : String) (auth : AuthInfo) :
    Option (MDispatch Unit Unit) :=
  match method with
  | "consensus.Deposit" => some (.handled ())
  | "consensus.Withdraw" =>
    match auth.signer_info.get? 0 with
    | none => none
    | some _ => some (.handled ())
  | _ => some (.unhandled ())

/-- C10: `tx_deposit`, `tx_withdraw` and the `consensus.Withdraw` prefetch
arm unconditionally index `signer_info[0]`.  They proceed normally (return
a value, never panic) for every transaction with a non-empty signer list;
with an empty signer list they panic (modelled `none`) rather than return
an error — for the tx handlers as soon as the preceding gas charge
succeeds, for prefetch unconditionally.  Non-empty `signer_info` is thus an
unstated precondition of these handlers. -/
theorem signer_info_zero_panic (conv : Nat → Option Nat) (gasCost : Nat)
    (compatOk checkOnly : Bool) (remainingGas : Nat) (st : CACtx)
    (auth : AuthInfo) (bodyW : WithdrawBody) (bodyD : DepositBody) :
    (auth.signer_info ≠ [] →
      tx_withdraw conv gasCost compatOk checkOnly remainingGas st auth bodyW ≠
        none ∧
      tx_deposit conv gasCost compatOk checkOnly remainingGas st auth bodyD ≠
        none ∧
      ca_prefetch "consensus.Withdraw" auth ≠ none) ∧
    (auth.signer_info = [] → gasCost ≤ remainingGas →
      tx_withdraw conv gasCost compatOk checkOnly remainingGas st auth bodyW =
        none ∧
      tx_deposit conv gasCost compatOk checkOnly remainingGas st auth bodyD =
        none ∧
      ca_prefetch "consensus.Withdraw" auth = none) := by
  obtain ⟨sl⟩ := auth
  cases sl with
  | nil =>
    constructor
    · intro h
      exact absurd rfl h
    · intro _ hgas
      have hno : ¬ (remainingGas < gasCost) := not_lt.mpr hgas
      refine ⟨?_, ?_, rfl⟩
      · unfold tx_withdraw use_tx_gas
        rw [if_neg hno]
        rfl
      · unfold tx_deposit use_tx_gas
        rw [if_neg hno]
        rfl
  | cons s rest =>
    constructor
    · intro _
      refine ⟨?_, ?_, ?_⟩
      · unfold tx_withdraw
        cases hg : use_tx_gas remainingGas gasCost with
        | error e => simp
        | ok g => cases hco : bodyW.dst.isNone && !compatOk <;> simp [hco]
      · unfold tx_deposit
        cases hg : use_tx_gas remainingGas gasCost with
        | error e => simp
        | ok g => cases hco : compatOk <;> simp [hco]
      · intro hcontra
        rw [show ca_prefetch "consensus.Withdraw" ⟨s :: rest⟩ =
          some (.handled ()) from rfl] at hcontra
        cases hcontra
    · intro h
      cases h

/-- Witness: `signer_info_zero_panic` at a concrete handler configuration
with one signer. -/
theorem signer_info_zero_panic_witness :
    ((⟨[⟨5, 7⟩]⟩ : AuthInfo).signer_info ≠ [] →
      tx_withdraw (fun n => some n) 1 true false 10 ⟨[(5, 100)], [], [], 0⟩
          ⟨[⟨5, 7⟩]⟩ ⟨none, 40⟩ ≠ none ∧
      tx_deposit (fun n => some n) 1 true false 10 ⟨[(5, 100)], [], [], 0⟩
          ⟨[⟨5, 7⟩]⟩ ⟨none, 40⟩ ≠ none ∧
      ca_prefetch "consensus.Withdraw" ⟨[⟨5, 7⟩]⟩ ≠ none) ∧
    ((⟨[⟨5, 7⟩]⟩ : AuthInfo).signer_info = [] → 1 ≤ 10 →
      tx_withdraw (fun n => some n) 1 true false 10 ⟨[(5, 100)], [], [], 0⟩
          ⟨[⟨5, 7⟩]⟩ ⟨none, 40⟩ = none ∧
      tx_deposit (fun n => some n) 1 true false 10 ⟨[(5, 100)], [], [], 0⟩
          ⟨[⟨5, 7⟩]⟩ ⟨none, 40⟩ = none ∧
      ca_prefetch "consensus.Withdraw" ⟨[⟨5, 7⟩]⟩ = none) :=
  signer_info_zero_panic (fun n => some n) 1 true false 10
    ⟨[(5, 100)], [], [], 0⟩ ⟨[⟨5, 7⟩]⟩ ⟨none, 40⟩ ⟨none, 40⟩

end OasisSdk
